import Mathlib

/- Formal model of the streaming fragment processor of the demo_hilos repository:
   src/srv/processing/fragmentProcessor.js (fragmenter, worker pool, job runner),
   src/srv/processing/validationWorker.js (per-line validation worker, the
   reference-data variant), and the memory check of memoryLogger.js
   (src/unnamed/part_003).  Text is modelled as `List Char`; byte lengths are
   UTF-8 byte counts, matching Buffer.byteLength(s, 'utf8'). -/

-- ===========================================================
-- Configuration constants (fragmentProcessor.js, CONFIG)
-- ===========================================================

def FRAGMENT_MAX_BYTES : Nat := 32 * 1024 * 1024

def FAIL_FAST_THRESHOLD : Nat := 50000

def MEMORY_THRESHOLD_PERCENT : ℚ := 75

def CONTAINER_MEMORY_MB : ℚ := 2048

-- ===========================================================
-- Text primitives
-- ===========================================================

/-- UTF-8 byte length of a character list (JS Buffer.byteLength with 'utf8'). -/
def byteLen (l : List Char) : Nat := (l.map Char.utf8Size).sum

/-- JS String.prototype.split with a single-character separator:
    `"a\nb\n".split('\n') = ["a","b",""]`. -/
def splitOn (sep : Char) : List Char → List (List Char)
  | [] => [[]]
  | c :: cs =>
    if c = sep then [] :: splitOn sep cs
    else
      match splitOn sep cs with
      | [] => [[c]]
      | l :: ls => (c :: l) :: ls

/-- The character set removed by JS String.prototype.trim: ECMAScript WhiteSpace
    (TAB, VT, FF, SP, NBSP, ZWNBSP, the Unicode Zs category) and LineTerminator
    (LF, CR, LS, PS). -/
def isJsWhitespace (c : Char) : Bool :=
  let n := c.toNat
  n = 9 || n = 10 || n = 11 || n = 12 || n = 13 || n = 32 || n = 160 ||
  n = 0x1680 || (0x2000 ≤ n && n ≤ 0x200A) || n = 0x2028 || n = 0x2029 ||
  n = 0x202F || n = 0x205F || n = 0x3000 || n = 0xFEFF

/-- JS String.prototype.trim on a character list. -/
def jsTrim (l : List Char) : List Char :=
  ((l.dropWhile isJsWhitespace).reverse.dropWhile isJsWhitespace).reverse

/-- Modelled from the spec: the spec's notion of trimming ("Trimming is ASCII
    whitespace", section 4.1), which is narrower than the JS trim the worker
    actually performs.  Used only to compare the spec's claim with the code. -/
def isAsciiWhitespace (c : Char) : Bool :=
  let n := c.toNat
  n = 9 || n = 10 || n = 11 || n = 12 || n = 13 || n = 32

/-- Modelled from the spec: ASCII-whitespace trim. -/
def asciiTrim (l : List Char) : List Char :=
  ((l.dropWhile isAsciiWhitespace).reverse.dropWhile isAsciiWhitespace).reverse

/-- Index of the last '\n' in the buffer (JS String.prototype.lastIndexOf,
    with `none` standing for -1). -/
def lastNewlineIdx : List Char → Option Nat
  | [] => none
  | c :: cs =>
    match lastNewlineIdx cs with
    | some i => some (i + 1)
    | none => if c = '\n' then some 0 else none

/-- Number of lines of a fragment text as the fragmenter counts it:
    occurrences of '\n' plus one (fragmentProcessor.js lines 317-319). -/
def lineCountOf (t : List Char) : Nat := t.count '\n' + 1

/-- Byte length of the longest single '\n'-separated line of a text. -/
def longestLine (t : List Char) : Nat :=
  ((splitOn '\n' t).map byteLen).foldr Nat.max 0

-- ===========================================================
-- Validation worker (validationWorker.js, reference-data variant)
-- ===========================================================

/-- Reference data passed to a worker: for each category, `some s` when the
    key is present in workerData.referenceData (the set may be empty) and
    `none` when the key is absent.  `new Set(arr)` membership is list
    membership. -/
structure RefData where
  currencies : Option (List (List Char))
  provinces : Option (List (List Char))
  products : Option (List (List Char))
deriving DecidableEq

/-- The reference data actually produced by FragmentProcessor._loadReferenceData,
    which returns `{}` (no keys) in the source. -/
def refDataEmpty : RefData := ⟨none, none, none⟩

/-- Outcome of validating one line. -/
structure LineError where
  errorType : String
  errorMessage : String
  fieldName : Option String
  fieldValue : Option (List Char)
deriving DecidableEq

/-- `refData.<cat> && !refData.<cat>.has(v)`: the check fails iff the category
    key is present and the value is not a member.  Note an empty-but-present
    set is truthy in JS, so it fails every value. -/
def matchSetFails (s : Option (List (List Char))) (v : List Char) : Bool :=
  match s with
  | none => false
  | some set => !(set.contains v)

/-- Per-line validation of validationWorker.js lines 124-174 (the variant with
    reference data): split by ';', require >= 12 columns, require non-empty
    trimmed currency/province/product (columns 3, 10, 11), then check each
    against its reference set.  Error messages elide the quoted field value. -/
def validateLine (r : RefData) (line : List Char) : Option LineError :=
  let cols := splitOn ';' line
  let columnCount := cols.length
  if columnCount < 12 then
    some ⟨"too_few_columns", "Expected >=12 columns, got " ++ toString columnCount,
          none, none⟩
  else
    let currency := jsTrim (cols.getD 3 [])
    let province := jsTrim (cols.getD 10 [])
    let product := jsTrim (cols.getD 11 [])
    if currency = [] then
      some ⟨"missing_field", "Currency is empty", some "currency", none⟩
    else if province = [] then
      some ⟨"missing_field", "Province is empty", some "province", none⟩
    else if product = [] then
      some ⟨"missing_field", "Product is empty", some "product", none⟩
    else if matchSetFails r.currencies currency then
      some ⟨"invalid_currency", "Currency not found", some "currency", some currency⟩
    else if matchSetFails r.provinces province then
      some ⟨"invalid_province", "Province not found", some "province", some province⟩
    else if matchSetFails r.products product then
      some ⟨"invalid_product", "Product not found", some "product", some product⟩
    else
      none

/-- First-error sample captured by a worker. -/
structure FirstError where
  lineNumber : Nat
  errorType : String
  errorMessage : String
  fieldName : Option String
  fieldValue : Option (List Char)
  rawLine : List Char
deriving DecidableEq

/-- Running accumulator of the worker's line loop. -/
structure WorkerAcc where
  processedLines : Nat
  errorCount : Nat
  firstError : Option FirstError
deriving DecidableEq

/-- `!line || line.trim().length === 0`: the skip condition for blank lines. -/
def blankLine (l : List Char) : Bool := l.isEmpty || (jsTrim l).isEmpty

/-- One iteration of the worker's loop over the fragment's lines
    (validationWorker.js lines 118-190): skip blank lines, validate, count,
    and capture the first error with rawLine capped at 500 characters. -/
def lineStep (r : RefData) (startLine i : Nat) (line : List Char)
    (acc : WorkerAcc) : WorkerAcc :=
  if blankLine line then acc
  else
    let acc1 : WorkerAcc := { acc with processedLines := acc.processedLines + 1 }
    match validateLine r line with
    | none => acc1
    | some e =>
      let acc2 : WorkerAcc := { acc1 with errorCount := acc1.errorCount + 1 }
      match acc2.firstError with
      | some _ => acc2
      | none =>
        { acc2 with firstError := some ⟨startLine + i, e.errorType, e.errorMessage,
                                        e.fieldName, e.fieldValue, line.take 500⟩ }

/-- The worker's indexed fold over the fragment's lines. -/
def workerFold (r : RefData) (startLine : Nat) :
    Nat → List (List Char) → WorkerAcc → WorkerAcc
  | _, [], acc => acc
  | i, l :: ls, acc => workerFold r startLine (i + 1) ls (lineStep r startLine i l acc)

/-- The fragment_done message a worker posts back. -/
structure FragmentResult where
  fragmentNumber : Nat
  processedLines : Nat
  processedBytes : Nat
  errorCount : Nat
  firstError : Option FirstError
deriving DecidableEq

/-- Whole-fragment processing: split the slab by '\n', run the line loop,
    report counters and UTF-8 byte length. -/
def processFragment (r : RefData) (fragmentNumber startLineNumber : Nat)
    (text : List Char) : FragmentResult :=
  let lines := splitOn '\n' text
  let acc := workerFold r startLineNumber 0 lines ⟨0, 0, none⟩
  ⟨fragmentNumber, acc.processedLines, byteLen text, acc.errorCount, acc.firstError⟩

-- ===========================================================
-- Stream fragmenter (fragmentProcessor.js lines 279-375)
-- ===========================================================

/-- A fragment as dispatched to a worker: sequence number, text slab and the
    starting line number. -/
structure Frag where
  seq : Nat
  text : List Char
  startLine : Nat
deriving DecidableEq

/-- Fragmenter state: the rolling buffer, the next startLineNumber
    (fragmentStartLine) and the last assigned fragment number. -/
structure FState where
  buffer : List Char
  startLine : Nat
  fragNum : Nat
deriving DecidableEq

/-- The in-stream slicing loop (lines 308-350), checks and dispatch elided:
    while the buffer's byte length is at or above FRAGMENT_MAX_BYTES, slice at
    the last '\n' (exclusive), emit, keep the tail, and advance startLine by
    the emitted fragment's line count.  `fuel` only bounds the recursion; any
    fuel above the buffer length is enough, because each emission shortens the
    buffer by at least one character. -/
def sliceGo : Nat → FState → FState × List Frag
  | 0, st => (st, [])
  | fuel + 1, st =>
    if byteLen st.buffer ≥ FRAGMENT_MAX_BYTES then
      match lastNewlineIdx st.buffer with
      | none => (st, [])
      | some i =>
        let fragText := st.buffer.take i
        let rest := st.buffer.drop (i + 1)
        let lc := lineCountOf fragText
        let f : Frag := ⟨st.fragNum + 1, fragText, st.startLine⟩
        let out := sliceGo fuel ⟨rest, st.startLine + lc, st.fragNum + 1⟩
        (out.1, f :: out.2)
    else (st, [])

/-- The slicing loop with sufficient fuel. -/
def sliceAll (st : FState) : FState × List Frag :=
  sliceGo (st.buffer.length + 1) st

/-- Appending one incoming chunk and running the slicing loop. -/
def stepChunk (st : FState) (c : List Char) : FState × List Frag :=
  sliceAll { st with buffer := st.buffer ++ c }

/-- Folding the fragmenter over the stream's chunks. -/
def runStream (st : FState) : List (List Char) → FState × List Frag
  | [] => (st, [])
  | c :: cs =>
    let out1 := stepChunk st c
    let out2 := runStream out1.1 cs
    (out2.1, out1.2 ++ out2.2)

/-- EOF flush (lines 354-375): emit the tail as a final fragment when its JS
    trim is non-empty. -/
def flushFrags (st : FState) : List Frag :=
  if jsTrim st.buffer ≠ [] then [⟨st.fragNum + 1, st.buffer, st.startLine⟩] else []

/-- Initial fragmenter state: empty buffer, startLine 1, no fragments yet. -/
def initFState : FState := ⟨[], 1, 0⟩

/-- All fragments the fragmenter emits for a stream of chunks, in emission
    order (in-stream fragments, then the EOF flush fragment if any). -/
def emitFragments (chunks : List (List Char)) : List Frag :=
  let out := runStream initFState chunks
  out.2 ++ flushFrags out.1

/-- The fragmenter state after the first k chunks have been consumed. -/
def stateAfter (chunks : List (List Char)) (k : Nat) : FState :=
  (runStream initFState (chunks.take k)).1

/-- Buffer invariant of the fragmenter: between chunk arrivals the rolling
    buffer is under the byte threshold or holds no newline at all. -/
def BufInv (b : List Char) : Prop := byteLen b < FRAGMENT_MAX_BYTES ∨ '\n' ∉ b

-- ===========================================================
-- Memory check (memoryLogger.js, src/unnamed/part_003 lines 572-583)
-- ===========================================================

/-- checkMemoryThreshold(thresholdPercent, containerMB): compares the process
    RSS in MB against thresholdPercent% of containerMB; on a breach it only
    logs a warning and returns false, otherwise returns true. -/
def checkMemoryThreshold (rssMB thresholdPercent containerMB : ℚ) : Bool :=
  let thresholdMB := containerMB * (thresholdPercent / 100)
  if rssMB > thresholdMB then false else true

-- ===========================================================
-- Job runner (FragmentProcessor._processJob, lines 171-454)
-- ===========================================================

/-- Runner state while the stream is being consumed: fragmenter bookkeeping
    plus the aggregated counters and the first-error sample.  The embedding
    fixes the legal schedule in which each worker posts its result before the
    runner's next dispatch (counters are reduced by commutative addition, so
    any schedule yields the same totals). -/
structure LoopState where
  buffer : List Char
  startLine : Nat
  fragNum : Nat
  processedLines : Nat
  processedBytes : Nat
  errorLines : Nat
  fragmentsDone : Nat
  firstError : Option FirstError
deriving DecidableEq

/-- The onFragmentDone callback (lines 210-229): add the worker's counters,
    bump fragmentsDone and keep only the first error sample. -/
def applyResult (st : LoopState) (res : FragmentResult) : LoopState :=
  { st with
    processedLines := st.processedLines + res.processedLines
    processedBytes := st.processedBytes + res.processedBytes
    errorLines := st.errorLines + res.errorCount
    fragmentsDone := st.fragmentsDone + 1
    firstError := match st.firstError with
      | some e => some e
      | none => res.firstError }

/-- What the runner's catch block needs about a thrown error: whether the
    cancel flag was set at the throw site, the message, and the counters at
    that moment. -/
structure ErrInfo where
  cancelled : Bool
  msg : String
  st : LoopState
deriving DecidableEq

/-- The fail-fast error message (line 327-329). -/
def failFastMsg (n : Nat) : String :=
  "Too many errors (" ++ toString n ++ "), threshold: " ++ toString FAIL_FAST_THRESHOLD

/-- The in-stream while loop of the runner (lines 308-350), with the fail-fast
    check, the memory check (whose result the caller discards) and the
    synchronous dispatch.  `mem` reports the process RSS in MB at each check.
    `fuel` only bounds the recursion as in sliceGo. -/
def sliceDispatchGo (r : RefData) (mem : Nat → ℚ) :
    Nat → LoopState → Except ErrInfo LoopState
  | 0, st => .ok st
  | fuel + 1, st =>
    if byteLen st.buffer ≥ FRAGMENT_MAX_BYTES then
      match lastNewlineIdx st.buffer with
      | none => .ok st
      | some i =>
        let fragText := st.buffer.take i
        let rest := st.buffer.drop (i + 1)
        let lc := lineCountOf fragText
        let fragNum1 := st.fragNum + 1
        let dispatchLine := st.startLine
        let st1 : LoopState :=
          { st with buffer := rest, fragNum := fragNum1, startLine := st.startLine + lc }
        if st.errorLines ≥ FAIL_FAST_THRESHOLD then
          .error ⟨false, failFastMsg st.errorLines, st1⟩
        else
          let _ := checkMemoryThreshold (mem fragNum1) MEMORY_THRESHOLD_PERCENT
                     CONTAINER_MEMORY_MB
          let res := processFragment r fragNum1 dispatchLine fragText
          sliceDispatchGo r mem fuel (applyResult st1 res)
    else .ok st

/-- The in-stream loop with sufficient fuel. -/
def sliceDispatch (r : RefData) (mem : Nat → ℚ) (st : LoopState) :
    Except ErrInfo LoopState :=
  sliceDispatchGo r mem (st.buffer.length + 1) st

/-- Whether the set-once cancel flag is already up when chunk k arrives:
    `cancelAt = some j` means cancel(jobId) ran just before chunk j. -/
def cancelHit : Option Nat → Nat → Bool
  | none, _ => false
  | some j, k => j ≤ k

/-- The for-await chunk loop (lines 284-351): per chunk, check the cancel
    flag (line 302), append the chunk and run the in-stream slicing loop. -/
def chunkLoop (r : RefData) (mem : Nat → ℚ) (cancelAt : Option Nat) :
    Nat → LoopState → List (List Char) → Except ErrInfo LoopState
  | _, st, [] => .ok st
  | k, st, c :: cs =>
    if cancelHit cancelAt k then .error ⟨true, "Job cancelled", st⟩
    else
      match sliceDispatch r mem { st with buffer := st.buffer ++ c } with
      | .error e => .error e
      | .ok st1 => chunkLoop r mem cancelAt (k + 1) st1 cs

/-- EOF flush of the runner (lines 354-375): when the tail's JS trim is
    non-empty, dispatch it as a final fragment.  No fail-fast, memory or
    cancel check precedes this dispatch. -/
def flushDispatch (r : RefData) (st : LoopState) : LoopState :=
  if jsTrim st.buffer ≠ [] then
    let fragNum1 := st.fragNum + 1
    let res := processFragment r fragNum1 st.startLine st.buffer
    applyResult { st with buffer := [], fragNum := fragNum1 } res
  else st

/-- The terminal registry update (timestamps and durations elided; fields a
    given path does not write are `none`). -/
structure JobUpdate where
  status : String
  totalLines : Option Nat
  processedLines : Nat
  processedBytes : Nat
  errorLines : Nat
  numFragments : Option Nat
  fragmentsDone : Option Nat
  errorMessage : Option String
  validationPassed : Option Bool
deriving DecidableEq

/-- The DONE update (lines 394-408). -/
def doneUpdate (st : LoopState) : JobUpdate :=
  { status := "DONE"
    totalLines := some st.processedLines
    processedLines := st.processedLines
    processedBytes := st.processedBytes
    errorLines := st.errorLines
    numFragments := some st.fragNum
    fragmentsDone := some st.fragmentsDone
    errorMessage := none
    validationPassed := some (st.errorLines == 0) }

/-- The catch block (lines 414-439): cancellation is detected from the flag
    or the 'Job cancelled' message (the AbortError cases arise only from the
    same cancel call); counters at the throw site are persisted. -/
def catchUpdate (cancelled : Bool) (msg : String) (st : LoopState) : JobUpdate :=
  let isCancelled := cancelled || msg == "Job cancelled"
  { status := if isCancelled then "CANCELLED" else "ERROR"
    totalLines := none
    processedLines := st.processedLines
    processedBytes := st.processedBytes
    errorLines := st.errorLines
    numFragments := none
    fragmentsDone := none
    errorMessage := some (if isCancelled then "Job cancelled by user" else msg)
    validationPassed := none }

/-- Initial runner state. -/
def initLoopState : LoopState := ⟨[], 1, 0, 0, 0, 0, 0, none⟩

/-- The runner state the stream phase ends in (ok: EOF reached; error: the
    throw site's data). -/
def streamPhase (r : RefData) (mem : Nat → ℚ) (cancelAt : Option Nat)
    (chunks : List (List Char)) : Except ErrInfo LoopState :=
  chunkLoop r mem cancelAt 0 initLoopState chunks

/-- One whole job run over a stream of chunks: stream phase, EOF flush, then
    the terminal update (DONE, or the catch block's ERROR/CANCELLED). -/
def runJob (r : RefData) (mem : Nat → ℚ) (cancelAt : Option Nat)
    (chunks : List (List Char)) : JobUpdate :=
  match streamPhase r mem cancelAt chunks with
  | .ok st => doneUpdate (flushDispatch r st)
  | .error e => catchUpdate e.cancelled e.msg e.st

/-- errorLines of a stream-phase outcome, whichever side it is on. -/
def exceptErrorLines : Except ErrInfo LoopState → Nat
  | .ok st => st.errorLines
  | .error e => e.st.errorLines

-- ===========================================================
-- Worker pool error handler (WorkerPool, lines 52-119)
-- ===========================================================

/-- Pool state: per-worker busy flags and the number of queued waiters. -/
structure PoolState where
  busyFlags : List Bool
  waitQueue : Nat
deriving DecidableEq

/-- The runner-side aggregates a worker failure could touch. -/
structure RunnerAgg where
  processedLines : Nat
  processedBytes : Nat
  errorLines : Nat
  fragmentsDone : Nat
  firstError : Option FirstError
deriving DecidableEq

/-- _notifyWaiters (lines 83-88): wake one waiter if any is queued. -/
def notifyWaiters (p : PoolState) : PoolState :=
  { p with waitQueue := p.waitQueue - 1 }

/-- The worker 'error' handler (lines 75-79): log, mark the worker idle, wake
    one waiter.  It does not touch any runner counter or the first-error
    sample. -/
def onWorkerError (p : PoolState) (agg : RunnerAgg) (i : Nat) :
    PoolState × RunnerAgg :=
  (notifyWaiters { p with busyFlags := p.busyFlags.set i false }, agg)

/-- Modelled from the spec: the behaviour section 4.3 requires of a worker
    failure but the pool's error handler does not implement - count the lost
    fragment's lines as errors and populate a worker_crash first error when
    none was captured yet. -/
def specOnWorkerError (p : PoolState) (agg : RunnerAgg) (i fragLineCount : Nat) :
    PoolState × RunnerAgg :=
  (notifyWaiters { p with busyFlags := p.busyFlags.set i false },
   { agg with
     errorLines := agg.errorLines + fragLineCount
     firstError := match agg.firstError with
       | some e => some e
       | none => some ⟨0, "worker_crash", "", none, none, []⟩ })

-- ===========================================================
-- Cancellation registry (FragmentProcessor.cancel, lines 159-166)
-- ===========================================================

/-- In-memory handle of an active job: the set-once cancel flag and whether
    the HTTP abort signal has fired. -/
structure JobHandle where
  cancelled : Bool
  aborted : Bool
deriving DecidableEq

/-- cancel(jobId): when the job is active, set its cancel flag and fire the
    abort; when it is not in the active map, do nothing. -/
def cancelJob (m : String → Option JobHandle) (jobId : String) :
    String → Option JobHandle :=
  match m jobId with
  | none => m
  | some _ => fun k => if k = jobId then some ⟨true, true⟩ else m k

-- ===========================================================
-- Helper definitions for statements and concrete inputs
-- ===========================================================

/-- n repetitions of the block `L ++ "\n"`: a stream of n copies of line L,
    each terminated by a newline. -/
def blockRep (L : List Char) : Nat → List Char
  | 0 => []
  | n + 1 => L ++ '\n' :: blockRep L n

/-- Trimmed column 3 of a line (the currency field). -/
def currencyOf (line : List Char) : List Char := jsTrim ((splitOn ';' line).getD 3 [])

/-- Trimmed column 10 of a line (the province field). -/
def provinceOf (line : List Char) : List Char := jsTrim ((splitOn ';' line).getD 10 [])

/-- Trimmed column 11 of a line (the product field). -/
def productOf (line : List Char) : List Char := jsTrim ((splitOn ';' line).getD 11 [])

/-- A value passes a reference category when the category is absent or
    contains the value. -/
def passesSet (s : Option (List (List Char))) (v : List Char) : Prop :=
  ∀ S, s = some S → v ∈ S

/-- Sequence/startLine bookkeeping of a fragment list relative to a base
    fragment number and base line number. -/
def FragSeqOk (baseSeq baseLine : Nat) : List Frag → Prop
  | [] => True
  | f :: fs =>
    f.seq = baseSeq + 1 ∧ f.startLine = baseLine ∧
    FragSeqOk (baseSeq + 1) (baseLine + lineCountOf f.text) fs

/-- A single-character line that fails validation (1 column < 12). -/
def xLine : List Char := ['x']

/-- A 15-character line with 12 ';'-separated columns whose columns 3, 10 and
    11 are non-empty: it passes validation under empty reference data. -/
def vLine : List Char := "b;;;a;;;;;;;a;a".data

/-- A line of FRAGMENT_MAX_BYTES 'a' characters (one overgrown line). -/
def aLine : List Char := List.replicate FRAGMENT_MAX_BYTES 'a'

/-- A single chunk holding three newline-terminated copies of aLine. -/
def c1chunk : List Char := blockRep aLine 3

/-- The single fragment the fragmenter emits for c1chunk. -/
def c1frag : List Char := blockRep aLine 2 ++ aLine

/-- 2^24 copies of "x\n": one full fragment of 2^24 failing lines. -/
def c5chunk : List Char := blockRep xLine 16777216

/-- A stream whose first chunk yields 2^24 error lines and whose tail forces
    a final flush dispatch. -/
def c5chunks : List (List Char) := [c5chunk, ['y']]

/-- 2^21 copies of the valid 16-byte block: one full fragment of valid lines. -/
def c3chunk : List Char := blockRep vLine 2097152

/-- Two such chunks: two in-stream dispatches with a memory check between. -/
def c3chunks : List (List Char) := [c3chunk, c3chunk]

/-- A memory oracle reporting zero RSS. -/
def memZero : Nat → ℚ := fun _ => 0

/-- A memory oracle reporting 10000 MB RSS, far above the 75% threshold of
    2048 MB. -/
def memHigh : Nat → ℚ := fun _ => 10000

/-- The first-error sample the worker reports for the line "x" at line 1. -/
def feX : FirstError :=
  ⟨1, "too_few_columns", "Expected >=12 columns, got 1", none, none, ['x']⟩

/-- Pool with one busy worker and no waiters. -/
def c4pool : PoolState := ⟨[true], 0⟩

/-- Runner aggregates before the crash: nothing counted yet. -/
def c4agg : RunnerAgg := ⟨0, 0, 0, 0, none⟩

/-- A line consisting of a single no-break space (U+00A0): JS trim removes
    it, ASCII trim does not. -/
def nbspLine : List Char := [Char.ofNat 160]

/-- RefData with a present but empty currencies set. -/
def c6refData : RefData := ⟨some [], none, none⟩

-- ===========================================================
-- Lemmas: text primitives
-- ===========================================================

theorem byteLen_nil : byteLen [] = 0 := rfl

theorem byteLen_cons (c : Char) (l : List Char) :
    byteLen (c :: l) = c.utf8Size + byteLen l := rfl

theorem byteLen_append (a b : List Char) :
    byteLen (a ++ b) = byteLen a + byteLen b := by
  simp [byteLen]

theorem byteLen_take_le (l : List Char) (n : Nat) :
    byteLen (l.take n) ≤ byteLen l := by
  conv_rhs => rw [← List.take_append_drop n l]
  rw [byteLen_append]
  exact Nat.le_add_right _ _

theorem byteLen_replicate (n : Nat) (c : Char) :
    byteLen (List.replicate n c) = n * c.utf8Size := by
  induction n with
  | zero => simp [byteLen]
  | succ n ih => rw [List.replicate_succ, byteLen_cons, ih, Nat.succ_mul]; omega

theorem splitOn_ne_nil (sep : Char) (l : List Char) : splitOn sep l ≠ [] := by
  cases l with
  | nil => simp [splitOn]
  | cons c cs =>
    rw [splitOn]
    by_cases h : c = sep
    · simp [h]
    · rw [if_neg h]
      cases splitOn sep cs <;> simp

theorem splitOn_cons_ne (sep c : Char) (cs : List Char) (h : c ≠ sep) :
    splitOn sep (c :: cs)
      = match splitOn sep cs with
        | [] => [[c]]
        | l :: ls => (c :: l) :: ls := by
  rw [splitOn, if_neg h]

theorem splitOn_append_sep (sep : Char) (B r : List Char) (hB : sep ∉ B) :
    splitOn sep (B ++ sep :: r) = B :: splitOn sep r := by
  induction B with
  | nil => simp [splitOn]
  | cons c B ih =>
    have hc : c ≠ sep := fun h => hB (h ▸ List.mem_cons_self c B)
    have hB2 : sep ∉ B := fun h => hB (List.mem_cons_of_mem c h)
    rw [List.cons_append, splitOn_cons_ne sep c _ hc, ih hB2]

theorem splitOn_noSep (sep : Char) (l : List Char) (h : sep ∉ l) :
    splitOn sep l = [l] := by
  induction l with
  | nil => rfl
  | cons c cs ih =>
    have hc : c ≠ sep := fun hh => h (hh ▸ List.mem_cons_self c cs)
    have h2 : sep ∉ cs := fun hh => h (List.mem_cons_of_mem c hh)
    rw [splitOn_cons_ne sep c cs hc, ih h2]

theorem splitOn_head_decomp (sep : Char) (B : List Char) (hB : sep ∉ B) :
    ∀ r, ∃ t ts, splitOn sep (B ++ r) = (B ++ t) :: ts := by
  induction B with
  | nil =>
    intro r
    cases h : splitOn sep r with
    | nil => exact absurd h (splitOn_ne_nil sep r)
    | cons t ts => exact ⟨t, ts, by simpa using h⟩
  | cons c B ih =>
    intro r
    have hc : c ≠ sep := fun h => hB (h ▸ List.mem_cons_self c B)
    have hB2 : sep ∉ B := fun h => hB (List.mem_cons_of_mem c h)
    obtain ⟨t, ts, ht⟩ := ih hB2 r
    exact ⟨t, ts, by rw [List.cons_append, splitOn_cons_ne sep c _ hc, ht]; simp⟩

theorem lastNewlineIdx_none_iff (l : List Char) :
    lastNewlineIdx l = none ↔ '\n' ∉ l := by
  induction l with
  | nil => simp [lastNewlineIdx]
  | cons c cs ih =>
    rw [lastNewlineIdx]
    cases h : lastNewlineIdx cs with
    | some i =>
      simp only []
      constructor
      · intro hh; exact absurd hh (by simp)
      · intro hh
        exact absurd (ih.mpr (fun hm => hh (List.mem_cons_of_mem c hm))) (by simp [h])
    | none =>
      have hcs : '\n' ∉ cs := ih.mp h
      by_cases hc : c = '\n'
      · simp [hc]
      · rw [if_neg hc]
        constructor
        · intro _ hm
          rcases List.mem_cons.mp hm with hm1 | hm2
          · exact hc hm1.symm
          · exact hcs hm2
        · intro _; rfl

theorem lastNewlineIdx_lt (l : List Char) (i : Nat) (h : lastNewlineIdx l = some i) :
    i < l.length := by
  induction l generalizing i with
  | nil => simp [lastNewlineIdx] at h
  | cons c cs ih =>
    rw [lastNewlineIdx] at h
    cases hcs : lastNewlineIdx cs with
    | some j =>
      rw [hcs] at h
      simp only [Option.some.injEq] at h
      have := ih j hcs
      simp [← h]; omega
    | none =>
      rw [hcs] at h
      by_cases hc : c = '\n'
      · rw [if_pos hc] at h
        simp only [Option.some.injEq] at h
        simp [← h]
      · rw [if_neg hc] at h; exact absurd h (by simp)

theorem lastNewlineIdx_drop_noNl (l : List Char) (i : Nat)
    (h : lastNewlineIdx l = some i) : '\n' ∉ l.drop (i + 1) := by
  induction l generalizing i with
  | nil => simp [lastNewlineIdx] at h
  | cons c cs ih =>
    rw [lastNewlineIdx] at h
    cases hcs : lastNewlineIdx cs with
    | some j =>
      rw [hcs] at h
      simp only [Option.some.injEq] at h
      rw [← h]
      simpa using ih j hcs
    | none =>
      rw [hcs] at h
      by_cases hc : c = '\n'
      · rw [if_pos hc] at h
        simp only [Option.some.injEq] at h
        rw [← h]
        simpa using (lastNewlineIdx_none_iff cs).mp hcs
      · rw [if_neg hc] at h; exact absurd h (by simp)

theorem lastNewlineIdx_concat (xs : List Char) :
    lastNewlineIdx (xs ++ ['\n']) = some xs.length := by
  induction xs with
  | nil => rfl
  | cons c cs ih => rw [List.cons_append, lastNewlineIdx, ih]; rfl

theorem lastNewlineIdx_ge_of_noNl :
    ∀ (B : List Char), '\n' ∉ B → ∀ (c : List Char) (i : Nat),
      lastNewlineIdx (B ++ c) = some i → B.length ≤ i := by
  intro B
  induction B with
  | nil => intro _ c i _; simp
  | cons ch B ih =>
    intro hB c i h
    have hch : ch ≠ '\n' := fun hh => hB (hh ▸ List.mem_cons_self ch B)
    have hB2 : '\n' ∉ B := fun hh => hB (List.mem_cons_of_mem ch hh)
    rw [List.cons_append, lastNewlineIdx] at h
    cases hcs : lastNewlineIdx (B ++ c) with
    | some j =>
      rw [hcs] at h
      simp only [Option.some.injEq] at h
      have := ih hB2 c j hcs
      rw [← h, List.length_cons]
      omega
    | none =>
      rw [hcs] at h
      rw [if_neg (fun hh => hch hh)] at h
      exact absurd h (by simp)

theorem takeAppendAll {α : Type} (xs ys : List α) :
    (xs ++ ys).take xs.length = xs := by
  induction xs with
  | nil => rfl
  | cons x xs ih => simp [List.take_cons, ih]

theorem dropAppendAll {α : Type} (xs ys : List α) :
    (xs ++ ys).drop xs.length = ys := by
  induction xs with
  | nil => rfl
  | cons x xs ih => simpa using ih

theorem takeAppendPlus {α : Type} (xs ys : List α) (k : Nat) :
    (xs ++ ys).take (xs.length + k) = xs ++ ys.take k := by
  induction xs with
  | nil => simp
  | cons x xs ih => simp [List.take_cons, Nat.succ_add, ih]

theorem dropAppendPlus {α : Type} (xs ys : List α) (k : Nat) :
    (xs ++ ys).drop (xs.length + k) = ys.drop k := by
  induction xs with
  | nil => simp
  | cons x xs ih => simpa [Nat.succ_add] using ih

theorem countNl_noNl (l : List Char) (h : '\n' ∉ l) : l.count '\n' = 0 :=
  List.count_eq_zero.mpr h

-- blockRep structure

theorem blockRep_zero (L : List Char) : blockRep L 0 = [] := rfl

theorem blockRep_succ (L : List Char) (n : Nat) :
    blockRep L (n + 1) = L ++ '\n' :: blockRep L n := rfl

theorem blockRep_succ_concat (L : List Char) (m : Nat) :
    blockRep L (m + 1) = (blockRep L m ++ L) ++ ['\n'] := by
  induction m with
  | zero => simp [blockRep_succ, blockRep_zero]
  | succ m ih =>
    conv_lhs => rw [blockRep_succ L (m + 1), ih]
    rw [blockRep_succ L m]
    simp

theorem byteLen_blockRep (L : List Char) (m : Nat) :
    byteLen (blockRep L m) = m * (byteLen L + 1) := by
  induction m with
  | zero => simp [blockRep_zero, byteLen]
  | succ m ih =>
    rw [blockRep_succ, byteLen_append, byteLen_cons, ih]
    have : ('\n').utf8Size = 1 := rfl
    rw [this, Nat.succ_mul]
    omega

theorem length_blockRep (L : List Char) (m : Nat) :
    (blockRep L m).length = m * (L.length + 1) := by
  induction m with
  | zero => simp [blockRep_zero]
  | succ m ih =>
    rw [blockRep_succ]
    simp [ih, Nat.succ_mul]
    omega

theorem noNl_blockRep_elems (L : List Char) (hL : '\n' ∉ L) (m : Nat) :
    splitOn '\n' (blockRep L m ++ L) = List.replicate (m + 1) L := by
  induction m with
  | zero => simpa [blockRep_zero] using splitOn_noSep '\n' L hL
  | succ m ih =>
    rw [blockRep_succ]
    rw [List.append_assoc, List.cons_append]
    rw [splitOn_append_sep '\n' L _ hL]
    rw [ih]
    rfl

theorem count_blockRep_append (L M : List Char) (hL : '\n' ∉ L) (m : Nat) :
    (blockRep L m ++ M).count '\n' = m + M.count '\n' := by
  induction m with
  | zero => simp [blockRep_zero]
  | succ m ih =>
    rw [blockRep_succ, List.append_assoc, List.cons_append]
    rw [List.count_append]
    rw [countNl_noNl L hL]
    rw [List.count_cons]
    simp [ih]
    omega

theorem lineCountOf_blockRep_frag (L : List Char) (hL : '\n' ∉ L) (m : Nat) :
    lineCountOf (blockRep L m ++ L) = m + 1 := by
  rw [lineCountOf, count_blockRep_append L L hL, countNl_noNl L hL]

theorem longestLine_ge_of_noNl (B r : List Char) (hB : '\n' ∉ B) :
    byteLen B ≤ longestLine (B ++ r) := by
  obtain ⟨t, ts, ht⟩ := splitOn_head_decomp '\n' B hB r
  rw [longestLine, ht]
  simp only [List.map_cons, List.foldr_cons]
  have h1 : byteLen B ≤ byteLen (B ++ t) := by
    rw [byteLen_append]; exact Nat.le_add_right _ _
  exact le_trans h1 (Nat.le_max_left _ _)

theorem longestLine_noNl (b : List Char) (hb : '\n' ∉ b) :
    longestLine b = byteLen b := by
  rw [longestLine, splitOn_noSep '\n' b hb]
  simp [Nat.max_zero]

-- ===========================================================
-- Lemmas: the slicing loop
-- ===========================================================

theorem sliceGo_succ (fuel : Nat) (st : FState) :
    sliceGo (fuel + 1) st =
      if byteLen st.buffer ≥ FRAGMENT_MAX_BYTES then
        match lastNewlineIdx st.buffer with
        | none => (st, [])
        | some i =>
          let out := sliceGo fuel ⟨st.buffer.drop (i + 1),
            st.startLine + lineCountOf (st.buffer.take i), st.fragNum + 1⟩
          (out.1, ⟨st.fragNum + 1, st.buffer.take i, st.startLine⟩ :: out.2)
      else (st, []) := rfl

theorem sliceGo_fuel (fuel : Nat) :
    ∀ st : FState, st.buffer.length < fuel → sliceGo fuel st = sliceAll st := by
  induction fuel using Nat.strong_induction_on with
  | _ fuel ih =>
    intro st hlen
    cases fuel with
    | zero => omega
    | succ f =>
      show sliceGo (f + 1) st = sliceGo (st.buffer.length + 1) st
      rw [sliceGo_succ, sliceGo_succ]
      by_cases hge : byteLen st.buffer ≥ FRAGMENT_MAX_BYTES
      · rw [if_pos hge, if_pos hge]
        cases hidx : lastNewlineIdx st.buffer with
        | none => rfl
        | some i =>
          have hi := lastNewlineIdx_lt _ _ hidx
          have hrest : (st.buffer.drop (i + 1)).length < st.buffer.length := by
            rw [List.length_drop]; omega
          simp only []
          rw [ih f (by omega) _
                (by show (st.buffer.drop (i + 1)).length < f; omega),
              ih st.buffer.length (by omega) _ hrest]
      · rw [if_neg hge, if_neg hge]

theorem sliceAll_small (st : FState) (h : byteLen st.buffer < FRAGMENT_MAX_BYTES) :
    sliceAll st = (st, []) := by
  rw [sliceAll, sliceGo_succ, if_neg (by omega)]

theorem sliceAll_noNl (st : FState) (h : lastNewlineIdx st.buffer = none) :
    sliceAll st = (st, []) := by
  rw [sliceAll, sliceGo_succ]
  by_cases hge : byteLen st.buffer ≥ FRAGMENT_MAX_BYTES
  · rw [if_pos hge, h]
  · rw [if_neg hge]

theorem sliceAll_emit (st : FState) (i : Nat)
    (hge : byteLen st.buffer ≥ FRAGMENT_MAX_BYTES)
    (hidx : lastNewlineIdx st.buffer = some i) :
    sliceAll st =
      (⟨st.buffer.drop (i + 1), st.startLine + lineCountOf (st.buffer.take i),
        st.fragNum + 1⟩,
       [⟨st.fragNum + 1, st.buffer.take i, st.startLine⟩]) := by
  have hi := lastNewlineIdx_lt _ _ hidx
  have hrest : (st.buffer.drop (i + 1)).length < st.buffer.length := by
    rw [List.length_drop]; omega
  rw [sliceAll, sliceGo_succ, if_pos hge, hidx]
  simp only []
  rw [sliceGo_fuel _ _ hrest,
      sliceAll_noNl _ ((lastNewlineIdx_none_iff _).mpr
        (lastNewlineIdx_drop_noNl _ _ hidx))]

-- ===========================================================
-- Lemmas: fragment numbering (towards C2)
-- ===========================================================

theorem runStream_nil (st : FState) : runStream st [] = (st, []) := rfl

theorem runStream_cons (st : FState) (c : List Char) (cs : List (List Char)) :
    runStream st (c :: cs)
      = ((runStream (stepChunk st c).1 cs).1,
         (stepChunk st c).2 ++ (runStream (stepChunk st c).1 cs).2) := rfl

theorem sliceAll_frags (st : FState) :
    (sliceAll st).1.fragNum = st.fragNum + (sliceAll st).2.length ∧
    (sliceAll st).1.startLine
        = st.startLine + ((sliceAll st).2.map (fun f => lineCountOf f.text)).sum ∧
    FragSeqOk st.fragNum st.startLine (sliceAll st).2 := by
  by_cases hge : byteLen st.buffer ≥ FRAGMENT_MAX_BYTES
  · cases hidx : lastNewlineIdx st.buffer with
    | none => rw [sliceAll_noNl st hidx]; simp [FragSeqOk]
    | some i =>
      rw [sliceAll_emit st i hge hidx]
      refine ⟨rfl, by simp, rfl, rfl, trivial⟩
  · rw [sliceAll_small st (by omega)]
    simp [FragSeqOk]

theorem fragSeqOk_append : ∀ (fs1 fs2 : List Frag) (s b : Nat),
    FragSeqOk s b fs1 →
    FragSeqOk (s + fs1.length) (b + (fs1.map (fun f => lineCountOf f.text)).sum) fs2 →
    FragSeqOk s b (fs1 ++ fs2) := by
  intro fs1
  induction fs1 with
  | nil => intro fs2 s b _ h2; simpa using h2
  | cons f fs1 ih =>
    intro fs2 s b h1 h2
    obtain ⟨ha, hb, hc⟩ := h1
    refine ⟨ha, hb, ih fs2 (s + 1) (b + lineCountOf f.text) hc ?_⟩
    have e1 : s + 1 + fs1.length = s + (f :: fs1).length := by
      simp [List.length_cons]; omega
    have e2 : b + lineCountOf f.text + (fs1.map (fun g => lineCountOf g.text)).sum
        = b + ((f :: fs1).map (fun g => lineCountOf g.text)).sum := by
      simp [List.map_cons, List.sum_cons]; omega
    rw [e1, e2]
    exact h2

theorem runStream_frags : ∀ (cs : List (List Char)) (st : FState),
    (runStream st cs).1.fragNum = st.fragNum + (runStream st cs).2.length ∧
    (runStream st cs).1.startLine
        = st.startLine + ((runStream st cs).2.map (fun f => lineCountOf f.text)).sum ∧
    FragSeqOk st.fragNum st.startLine (runStream st cs).2 := by
  intro cs
  induction cs with
  | nil => intro st; simp [runStream, FragSeqOk]
  | cons c cs ih =>
    intro st
    have hstep := sliceAll_frags { st with buffer := st.buffer ++ c }
    have hrec := ih (stepChunk st c).1
    have hrs : runStream st (c :: cs)
        = ((runStream (stepChunk st c).1 cs).1,
           (stepChunk st c).2 ++ (runStream (stepChunk st c).1 cs).2) := rfl
    rw [hrs]
    simp only [stepChunk] at hstep hrec ⊢
    refine ⟨?_, ?_, ?_⟩
    · rw [hrec.1, hstep.1]
      simp [List.length_append]
      omega
    · rw [hrec.2.1, hstep.2.1]
      simp [List.map_append, List.sum_append]
      omega
    · exact fragSeqOk_append _ _ _ _ hstep.2.2
        (by rw [← hstep.1, ← hstep.2.1]; exact hrec.2.2)

theorem flushFrags_ok (st : FState) :
    FragSeqOk st.fragNum st.startLine (flushFrags st) := by
  rw [flushFrags]
  by_cases h : jsTrim st.buffer ≠ []
  · rw [if_pos h]; exact ⟨rfl, rfl, trivial⟩
  · rw [if_neg h]; trivial

theorem emitFragments_ok (chunks : List (List Char)) :
    FragSeqOk 0 1 (emitFragments chunks) := by
  have hrun := runStream_frags chunks initFState
  have hflush := flushFrags_ok (runStream initFState chunks).1
  rw [emitFragments]
  refine fragSeqOk_append _ _ _ _ hrun.2.2 ?_
  have e1 : (0 : Nat) + (runStream initFState chunks).2.length
      = (runStream initFState chunks).1.fragNum := by
    rw [hrun.1]; rfl
  have e2 : (1 : Nat) + ((runStream initFState chunks).2.map
        (fun f => lineCountOf f.text)).sum
      = (runStream initFState chunks).1.startLine := by
    rw [hrun.2.1]; rfl
  rw [e1, e2]
  exact hflush

theorem fragSeqOk_index : ∀ (fs : List Frag) (s b : Nat), FragSeqOk s b fs →
    ∀ i (h : i < fs.length),
      (fs.get ⟨i, h⟩).seq = s + i + 1 ∧
      (fs.get ⟨i, h⟩).startLine
          = b + ((fs.take i).map (fun f => lineCountOf f.text)).sum := by
  intro fs
  induction fs with
  | nil => intro s b _ i h; simp at h
  | cons f fs ih =>
    intro s b hok i h
    obtain ⟨ha, hb, hc⟩ := hok
    cases i with
    | zero =>
      refine ⟨by simpa using ha, by simpa using hb⟩
    | succ i =>
      have h2 : i < fs.length := by simpa using h
      have := ih (s + 1) (b + lineCountOf f.text) hc i h2
      constructor
      · show (fs.get ⟨i, h2⟩).seq = s + (i + 1) + 1
        rw [this.1]; omega
      · show (fs.get ⟨i, h2⟩).startLine
            = b + (((f :: fs).take (i + 1)).map (fun g => lineCountOf g.text)).sum
        rw [this.2]
        simp [List.take_succ_cons, List.map_cons, List.sum_cons]
        omega

-- ===========================================================
-- Lemmas: fragment size bounds (towards C1)
-- ===========================================================

theorem stepChunk_bound (st : FState) (c : List Char) (hinv : BufInv st.buffer) :
    (∀ f ∈ (stepChunk st c).2,
        byteLen f.text < FRAGMENT_MAX_BYTES + longestLine f.text + byteLen c ∧
        '\n' ∉ (stepChunk st c).1.buffer) ∧
    BufInv (stepChunk st c).1.buffer := by
  have hmax : 0 < FRAGMENT_MAX_BYTES := by norm_num [FRAGMENT_MAX_BYTES]
  by_cases hge : byteLen (st.buffer ++ c) ≥ FRAGMENT_MAX_BYTES
  · cases hidx : lastNewlineIdx (st.buffer ++ c) with
    | none =>
      rw [stepChunk, sliceAll_noNl _ hidx]
      refine ⟨by simp, Or.inr ?_⟩
      exact (lastNewlineIdx_none_iff _).mp hidx
    | some i =>
      rw [stepChunk, sliceAll_emit _ i hge hidx]
      have hdropNl : '\n' ∉ (st.buffer ++ c).drop (i + 1) :=
        lastNewlineIdx_drop_noNl _ _ hidx
      refine ⟨?_, Or.inr hdropNl⟩
      intro f hf
      simp only [List.mem_singleton] at hf
      subst hf
      refine ⟨?_, hdropNl⟩
      simp only []
      rcases hinv with hsmall | hnoNl
      · have h1 : byteLen ((st.buffer ++ c).take i) ≤ byteLen st.buffer + byteLen c := by
          calc byteLen ((st.buffer ++ c).take i) ≤ byteLen (st.buffer ++ c) :=
                byteLen_take_le _ _
            _ = byteLen st.buffer + byteLen c := byteLen_append _ _
        omega
      · have hle : st.buffer.length ≤ i :=
          lastNewlineIdx_ge_of_noNl st.buffer hnoNl c i hidx
        have hik : i = st.buffer.length + (i - st.buffer.length) := by omega
        have htake : (st.buffer ++ c).take i
            = st.buffer ++ c.take (i - st.buffer.length) := by
          conv_lhs => rw [hik]
          exact takeAppendPlus st.buffer c (i - st.buffer.length)
        rw [htake]
        have h1 : byteLen (st.buffer ++ c.take (i - st.buffer.length))
            ≤ byteLen st.buffer + byteLen c := by
          rw [byteLen_append]
          have := byteLen_take_le c (i - st.buffer.length)
          omega
        have h2 : byteLen st.buffer
            ≤ longestLine (st.buffer ++ c.take (i - st.buffer.length)) :=
          longestLine_ge_of_noNl _ _ hnoNl
        omega
  · rw [stepChunk,
        sliceAll_small _ (by show byteLen (st.buffer ++ c) < FRAGMENT_MAX_BYTES; omega)]
    refine ⟨by simp, Or.inl ?_⟩
    show byteLen (st.buffer ++ c) < FRAGMENT_MAX_BYTES
    omega

theorem runStream_bufInv : ∀ (cs : List (List Char)) (st : FState),
    BufInv st.buffer → BufInv (runStream st cs).1.buffer := by
  intro cs
  induction cs with
  | nil => intro st h; exact h
  | cons c cs ih =>
    intro st h
    have hrs : (runStream st (c :: cs)).1 = (runStream (stepChunk st c).1 cs).1 := rfl
    rw [hrs]
    exact ih _ (stepChunk_bound st c h).2

theorem bufInv_nil : BufInv ([] : List Char) :=
  Or.inl (by norm_num [byteLen, FRAGMENT_MAX_BYTES])

theorem stateAfter_bufInv (chunks : List (List Char)) (k : Nat) :
    BufInv (stateAfter chunks k).buffer :=
  runStream_bufInv _ _ bufInv_nil

theorem flushFrags_bound (st : FState) (hinv : BufInv st.buffer) :
    ∀ f ∈ flushFrags st, byteLen f.text ≤ FRAGMENT_MAX_BYTES + longestLine f.text := by
  intro f hf
  rw [flushFrags] at hf
  by_cases h : jsTrim st.buffer ≠ []
  · rw [if_pos h] at hf
    simp only [List.mem_singleton] at hf
    subst hf
    simp only []
    rcases hinv with hsmall | hnoNl
    · omega
    · rw [longestLine_noNl _ hnoNl]
      omega
  · rw [if_neg h] at hf
    simp at hf

-- ===========================================================
-- Claim C1 and Claim C2
-- ===========================================================

/-- Claim C1 (amended): every in-stream fragment the fragmenter emits while a
    chunk c is being consumed has byte length strictly below
    FRAGMENT_MAX_BYTES plus the longest line in the fragment plus the byte
    length of c, and after each such emission the rolling buffer holds no
    newline (a single unterminated line); the EOF flush fragment does satisfy
    the original bound FRAGMENT_MAX_BYTES plus its longest line.  The original
    chunk-independent bound fails for arbitrary chunk sizes (see the
    counterexample). -/
theorem fragmenter_size_amended (chunks : List (List Char)) (k : Nat)
    (hk : k < chunks.length) :
    (∀ f ∈ (stepChunk (stateAfter chunks k) (chunks.get ⟨k, hk⟩)).2,
        byteLen f.text < FRAGMENT_MAX_BYTES + longestLine f.text
            + byteLen (chunks.get ⟨k, hk⟩) ∧
        '\n' ∉ (stepChunk (stateAfter chunks k) (chunks.get ⟨k, hk⟩)).1.buffer) ∧
    (∀ f ∈ flushFrags (runStream initFState chunks).1,
        byteLen f.text ≤ FRAGMENT_MAX_BYTES + longestLine f.text) :=
  ⟨(stepChunk_bound _ _ (stateAfter_bufInv chunks k)).1,
   flushFrags_bound _ (runStream_bufInv chunks initFState bufInv_nil)⟩

/-- Witness for fragmenter_size_amended at the concrete stream ["a\n"]: the
    flush fragment "a\n" satisfies the bound. -/
theorem fragmenter_size_amended_witness :
    byteLen (Frag.mk 1 ['a', '\n'] 1).text
      ≤ FRAGMENT_MAX_BYTES + longestLine (Frag.mk 1 ['a', '\n'] 1).text :=
  (fragmenter_size_amended [['a', '\n']] 0 (by decide)).2 ⟨1, ['a', '\n'], 1⟩
    (by decide)

/-- Emission step for a buffer that is a newline-terminated block X ++ "\n"
    at or above the byte threshold: one fragment X is emitted and the buffer
    empties. -/
theorem sliceAll_concat (X : List Char) (s n : Nat)
    (hge : byteLen (X ++ ['\n']) ≥ FRAGMENT_MAX_BYTES) :
    sliceAll ⟨X ++ ['\n'], s, n⟩
      = (⟨[], s + lineCountOf X, n + 1⟩, [⟨n + 1, X, s⟩]) := by
  have hidx : lastNewlineIdx (X ++ ['\n']) = some X.length := lastNewlineIdx_concat X
  have h1 := sliceAll_emit ⟨X ++ ['\n'], s, n⟩ X.length hge hidx
  rw [h1]
  have ht : (X ++ ['\n']).take X.length = X := takeAppendAll X ['\n']
  have hd : (X ++ ['\n']).drop (X.length + 1) = [] := by
    have := dropAppendPlus X ['\n'] 1
    simpa using this
  rw [ht, hd]

/-- Counterexample to Claim C1 as stated: a single chunk carrying three
    newline-terminated lines of FRAGMENT_MAX_BYTES bytes each is emitted as
    one fragment of 3 * FRAGMENT_MAX_BYTES + 2 bytes, which exceeds
    FRAGMENT_MAX_BYTES plus its longest line (FRAGMENT_MAX_BYTES). -/
theorem fragmenter_size_ctrex :
    emitFragments [c1chunk] = [⟨1, c1frag, 1⟩] ∧
    FRAGMENT_MAX_BYTES + longestLine c1frag < byteLen c1frag := by
  have hnoNlA : '\n' ∉ aLine := by
    rw [aLine]
    intro h
    have := List.eq_of_mem_replicate h
    simp at this
  have hsplit : c1chunk = c1frag ++ ['\n'] := by
    rw [c1chunk, c1frag]; exact blockRep_succ_concat aLine 2
  have ha1 : ('a').utf8Size = 1 := rfl
  have hbA : byteLen aLine = 33554432 := by
    rw [aLine, byteLen_replicate, ha1]
    norm_num [FRAGMENT_MAX_BYTES]
  have hbFrag : byteLen c1frag = 100663298 := by
    rw [c1frag, byteLen_append, byteLen_blockRep, hbA]
  have hge : byteLen (c1frag ++ ['\n']) ≥ FRAGMENT_MAX_BYTES := by
    rw [byteLen_append, hbFrag]
    have h1 : byteLen ['\n'] = 1 := rfl
    rw [h1]
    norm_num [FRAGMENT_MAX_BYTES]
  have hstep : stepChunk initFState c1chunk
      = (⟨[], 1 + lineCountOf c1frag, 1⟩, [⟨1, c1frag, 1⟩]) := by
    rw [stepChunk]
    have hbuf : ({ initFState with buffer := initFState.buffer ++ c1chunk } : FState)
        = ⟨c1frag ++ ['\n'], 1, 0⟩ := by
      simp [initFState, hsplit]
    rw [hbuf]
    exact sliceAll_concat c1frag 1 0 hge
  constructor
  · rw [emitFragments]
    rw [runStream_cons, runStream_nil, hstep]
    rw [flushFrags]
    simp [jsTrim]
  · have hlong : longestLine c1frag = 33554432 := by
      rw [c1frag, longestLine, noNl_blockRep_elems aLine hnoNlA 2]
      have : List.replicate (2 + 1) aLine = [aLine, aLine, aLine] := rfl
      rw [this]
      simp [hbA]
    rw [hlong, hbFrag]
    norm_num [FRAGMENT_MAX_BYTES]

/-- Claim C2: the i-th emitted fragment (0-based i) has sequence number i+1
    and startLineNumber equal to 1 plus the sum of the line counts (count of
    '\n' plus one) of the previously emitted fragments; sequence numbers are
    therefore 1..N strictly increasing in emission order. -/
theorem fragment_numbering (chunks : List (List Char)) (i : Nat)
    (h : i < (emitFragments chunks).length) :
    ((emitFragments chunks).get ⟨i, h⟩).startLine
        = 1 + (((emitFragments chunks).take i).map (fun f => lineCountOf f.text)).sum ∧
    ((emitFragments chunks).get ⟨i, h⟩).seq = i + 1 := by
  have := fragSeqOk_index (emitFragments chunks) 0 1 (emitFragments_ok chunks) i h
  exact ⟨this.2, by rw [this.1]; omega⟩

/-- Witness for fragment_numbering at the concrete stream ["a\n"]: its single
    flush fragment has startLine 1 and sequence number 1. -/
theorem fragment_numbering_witness :
    ((emitFragments [['a', '\n']]).get ⟨0, by decide⟩).startLine
        = 1 + (((emitFragments [['a', '\n']]).take 0).map
            (fun f => lineCountOf f.text)).sum ∧
    ((emitFragments [['a', '\n']]).get ⟨0, by decide⟩).seq = 0 + 1 :=
  fragment_numbering [['a', '\n']] 0 (by decide)

-- ===========================================================
-- Lemmas: the validation worker loop (towards C6, C7, C10)
-- ===========================================================

theorem workerFold_counts (r : RefData) (s : Nat) :
    ∀ (ls : List (List Char)) (i : Nat) (acc : WorkerAcc),
      (workerFold r s i ls acc).processedLines
          = acc.processedLines + ls.countP (fun l => !(blankLine l)) ∧
      (workerFold r s i ls acc).errorCount
          = acc.errorCount
              + ls.countP (fun l => !(blankLine l) && (validateLine r l).isSome) := by
  intro ls
  induction ls with
  | nil => intro i acc; simp [workerFold]
  | cons l ls ih =>
    intro i acc
    have hsucc : workerFold r s i (l :: ls) acc
        = workerFold r s (i + 1) ls (lineStep r s i l acc) := rfl
    rw [hsucc]
    obtain ⟨ih1, ih2⟩ := ih (i + 1) (lineStep r s i l acc)
    rw [ih1, ih2]
    by_cases hb : blankLine l
    · simp [lineStep, hb, List.countP_cons]
    · cases hv : validateLine r l with
      | none =>
        simp [lineStep, hb, hv, List.countP_cons]
        omega
      | some e =>
        cases hf : acc.firstError with
        | some f =>
          simp [lineStep, hb, hv, hf, List.countP_cons]
          omega
        | none =>
          simp [lineStep, hb, hv, hf, List.countP_cons]
          omega

theorem workerFold_inv (r : RefData) (s : Nat) :
    ∀ (ls : List (List Char)) (i : Nat) (acc : WorkerAcc),
      acc.errorCount ≤ acc.processedLines →
      (∀ e, acc.firstError = some e →
        s ≤ e.lineNumber ∧ e.lineNumber < s + i ∧ e.rawLine.length ≤ 500) →
      (workerFold r s i ls acc).errorCount ≤ (workerFold r s i ls acc).processedLines ∧
      (∀ e, (workerFold r s i ls acc).firstError = some e →
        s ≤ e.lineNumber ∧ e.lineNumber < s + (i + ls.length) ∧
        e.rawLine.length ≤ 500) := by
  intro ls
  induction ls with
  | nil =>
    intro i acc h1 h2
    refine ⟨h1, fun e he => ?_⟩
    have := h2 e he
    simp only [List.length_nil]
    omega
  | cons l ls ih =>
    intro i acc h1 h2
    have hsucc : workerFold r s i (l :: ls) acc
        = workerFold r s (i + 1) ls (lineStep r s i l acc) := rfl
    rw [hsucc]
    have hstep1 : (lineStep r s i l acc).errorCount
        ≤ (lineStep r s i l acc).processedLines := by
      by_cases hb : blankLine l
      · simpa [lineStep, hb] using h1
      · cases hv : validateLine r l with
        | none => simp [lineStep, hb, hv]; omega
        | some e =>
          cases hf : acc.firstError with
          | some f => simp [lineStep, hb, hv, hf]; omega
          | none => simp [lineStep, hb, hv, hf]; omega
    have hstep2 : ∀ e, (lineStep r s i l acc).firstError = some e →
        s ≤ e.lineNumber ∧ e.lineNumber < s + (i + 1) ∧ e.rawLine.length ≤ 500 := by
      intro e he
      by_cases hb : blankLine l
      · rw [lineStep, if_pos hb] at he
        have := h2 e he
        omega
      · cases hv : validateLine r l with
        | none =>
          rw [lineStep, if_neg hb, hv] at he
          simp only [] at he
          have := h2 e he
          omega
        | some err =>
          cases hf : acc.firstError with
          | some f =>
            rw [lineStep, if_neg hb, hv] at he
            simp only [hf] at he
            have := h2 e (by rw [hf]; exact he)
            omega
          | none =>
            rw [lineStep, if_neg hb, hv] at he
            simp only [hf, Option.some.injEq] at he
            subst he
            refine ⟨?_, ?_, ?_⟩
            · show s ≤ s + i
              omega
            · show s + i < s + (i + 1)
              omega
            · show (l.take 500).length ≤ 500
              simpa using Nat.min_le_left 500 l.length
    have := ih (i + 1) (lineStep r s i l acc) hstep1 hstep2
    refine ⟨this.1, fun e he => ?_⟩
    have h3 := this.2 e he
    simp only [List.length_cons]
    omega

-- ===========================================================
-- Claim C7 and Claim C10
-- ===========================================================

/-- Claim C7 (amended): lines that are empty, or whose JavaScript trim
    (Unicode whitespace, not only ASCII) is empty, are skipped: processedLines
    counts exactly the '\n'-separated lines with non-empty JS trim, and
    errorCount counts exactly the non-blank lines the validator rejects.  The
    spec's "ASCII whitespace" reading fails on non-ASCII whitespace such as
    U+00A0 (see the counterexample). -/
theorem blank_skip_amended (r : RefData) (k s : Nat) (text : List Char) :
    (processFragment r k s text).processedLines
        = (splitOn '\n' text).countP (fun l => !(blankLine l)) ∧
    (processFragment r k s text).errorCount
        = (splitOn '\n' text).countP
            (fun l => !(blankLine l) && (validateLine r l).isSome) := by
  have h := workerFold_counts r s (splitOn '\n' text) 0 ⟨0, 0, none⟩
  exact ⟨by simpa [processFragment] using h.1, by simpa [processFragment] using h.2⟩

/-- Counterexample to Claim C7 as stated: a line holding a single no-break
    space (U+00A0) is skipped by the worker (processedLines = 0), yet its
    ASCII-whitespace trim is non-empty, so the claim's count says 1. -/
theorem blank_skip_ctrex :
    (processFragment refDataEmpty 1 1 nbspLine).processedLines = 0 ∧
    asciiTrim nbspLine = nbspLine ∧
    (splitOn '\n' nbspLine).countP (fun l => !(asciiTrim l).isEmpty) = 1 := by
  decide

/-- Claim C10: a worker's FragmentResult has errorCount ≤ processedLines, and
    a captured first error lies within the fragment's line-number range
    [startLineNumber, startLineNumber + number of lines - 1] with rawLine
    capped at 500 characters. -/
theorem worker_result_invariants (r : RefData) (k s : Nat) (text : List Char) :
    (processFragment r k s text).errorCount
        ≤ (processFragment r k s text).processedLines ∧
    (∀ e, (processFragment r k s text).firstError = some e →
      s ≤ e.lineNumber ∧ e.lineNumber < s + (splitOn '\n' text).length ∧
      e.rawLine.length ≤ 500) := by
  have h := workerFold_inv r s (splitOn '\n' text) 0 ⟨0, 0, none⟩ (by simp)
    (by intro e he; simp at he)
  constructor
  · simpa [processFragment] using h.1
  · intro e he
    have h2 := h.2 e (by simpa [processFragment] using he)
    refine ⟨h2.1, ?_, h2.2.2⟩
    have := h2.2.1
    omega

/-- Witness for worker_result_invariants: on the single-line fragment "x" at
    startLineNumber 1 the captured first error is feX, which lies in range. -/
theorem worker_result_invariants_witness :
    1 ≤ feX.lineNumber ∧ feX.lineNumber < 1 + (splitOn '\n' ['x']).length ∧
    feX.rawLine.length ≤ 500 :=
  (worker_result_invariants refDataEmpty 1 1 ['x']).2 feX (by decide)

-- ===========================================================
-- Claim C6
-- ===========================================================

theorem matchSetFails_true_iff (s : Option (List (List Char))) (v : List Char) :
    matchSetFails s v = true ↔ ∃ S, s = some S ∧ v ∉ S := by
  cases s with
  | none => simp [matchSetFails]
  | some S =>
    simp only [matchSetFails, Bool.not_eq_true']
    constructor
    · intro h
      refine ⟨S, rfl, fun hm => ?_⟩
      rw [show S.contains v = true by simpa using hm] at h
      cases h
    · rintro ⟨T, hT, hm⟩
      cases hT
      simpa using hm

theorem matchSetFails_false_iff (s : Option (List (List Char))) (v : List Char) :
    matchSetFails s v = false ↔ passesSet s v := by
  cases s with
  | none =>
    simp only [matchSetFails, passesSet]
    constructor
    · intro _ S h; cases h
    · intro _; trivial
  | some S =>
    simp only [matchSetFails, passesSet, Bool.not_eq_false']
    constructor
    · intro h T hT
      cases hT
      simpa using h
    · intro h
      simpa using h S rfl

theorem validateLine_eq_refchecks (r : RefData) (line : List Char)
    (h12 : ¬ (splitOn ';' line).length < 12)
    (hc : currencyOf line ≠ []) (hp : provinceOf line ≠ [])
    (hq : productOf line ≠ []) :
    validateLine r line =
      (if matchSetFails r.currencies (currencyOf line) then
        some ⟨"invalid_currency", "Currency not found", some "currency",
              some (currencyOf line)⟩
      else if matchSetFails r.provinces (provinceOf line) then
        some ⟨"invalid_province", "Province not found", some "province",
              some (provinceOf line)⟩
      else if matchSetFails r.products (productOf line) then
        some ⟨"invalid_product", "Product not found", some "product",
              some (productOf line)⟩
      else none) := by
  have hc2 : jsTrim ((splitOn ';' line).getD 3 []) ≠ [] := hc
  have hp2 : jsTrim ((splitOn ';' line).getD 10 []) ≠ [] := hp
  have hq2 : jsTrim ((splitOn ';' line).getD 11 []) ≠ [] := hq
  rw [validateLine]
  simp only []
  rw [if_neg h12, if_neg hc2, if_neg hp2, if_neg hq2]
  rfl

/-- Claim C6 (amended): for a line with at least 12 columns and non-empty
    trimmed currency/province/product, the validator reports
    invalid_<category> for the first category (checked in the order currency,
    province, product) whose key is PRESENT in the reference data and whose
    value is not a member; a line is accepted exactly when every present
    category contains its value.  The original claim's "non-empty set"
    condition fails: a present-but-empty set rejects every value (see the
    counterexample). -/
theorem refdata_validation_amended (r : RefData) (line : List Char)
    (h12 : ¬ (splitOn ';' line).length < 12)
    (hc : currencyOf line ≠ []) (hp : provinceOf line ≠ [])
    (hq : productOf line ≠ []) :
    ((validateLine r line).map LineError.errorType = some "invalid_currency"
        ↔ ∃ S, r.currencies = some S ∧ currencyOf line ∉ S) ∧
    ((validateLine r line).map LineError.errorType = some "invalid_province"
        ↔ passesSet r.currencies (currencyOf line) ∧
          ∃ S, r.provinces = some S ∧ provinceOf line ∉ S) ∧
    ((validateLine r line).map LineError.errorType = some "invalid_product"
        ↔ passesSet r.currencies (currencyOf line) ∧
          passesSet r.provinces (provinceOf line) ∧
          ∃ S, r.products = some S ∧ productOf line ∉ S) ∧
    (validateLine r line = none
        ↔ passesSet r.currencies (currencyOf line) ∧
          passesSet r.provinces (provinceOf line) ∧
          passesSet r.products (productOf line)) := by
  have hne1 : ("invalid_province" : String) ≠ "invalid_currency" := by decide
  have hne2 : ("invalid_product" : String) ≠ "invalid_currency" := by decide
  have hne3 : ("invalid_currency" : String) ≠ "invalid_province" := by decide
  have hne4 : ("invalid_product" : String) ≠ "invalid_province" := by decide
  have hne5 : ("invalid_currency" : String) ≠ "invalid_product" := by decide
  have hne6 : ("invalid_province" : String) ≠ "invalid_product" := by decide
  rw [validateLine_eq_refchecks r line h12 hc hp hq]
  by_cases h1 : matchSetFails r.currencies (currencyOf line)
  · have a1 := (matchSetFails_true_iff _ _).mp h1
    have b1 : ¬ passesSet r.currencies (currencyOf line) := by
      intro hpass
      have := (matchSetFails_false_iff r.currencies (currencyOf line)).mpr hpass
      rw [h1] at this
      cases this
    simp [h1, a1, b1, hne3, hne5]
  · have hf1 : matchSetFails r.currencies (currencyOf line) = false := by
      revert h1; cases matchSetFails r.currencies (currencyOf line) <;> simp
    have a1 : passesSet r.currencies (currencyOf line) :=
      (matchSetFails_false_iff _ _).mp hf1
    have b1 : ¬ ∃ S, r.currencies = some S ∧ currencyOf line ∉ S := by
      intro hex
      have := (matchSetFails_true_iff r.currencies (currencyOf line)).mpr hex
      rw [hf1] at this
      cases this
    by_cases h2 : matchSetFails r.provinces (provinceOf line)
    · have a2 := (matchSetFails_true_iff _ _).mp h2
      have b2 : ¬ passesSet r.provinces (provinceOf line) := by
        intro hpass
        have := (matchSetFails_false_iff r.provinces (provinceOf line)).mpr hpass
        rw [h2] at this
        cases this
      simp [h1, h2, a1, a2, b1, b2, hne1, hne6]
    · have hf2 : matchSetFails r.provinces (provinceOf line) = false := by
        revert h2; cases matchSetFails r.provinces (provinceOf line) <;> simp
      have a2 : passesSet r.provinces (provinceOf line) :=
        (matchSetFails_false_iff _ _).mp hf2
      have b2 : ¬ ∃ S, r.provinces = some S ∧ provinceOf line ∉ S := by
        intro hex
        have := (matchSetFails_true_iff r.provinces (provinceOf line)).mpr hex
        rw [hf2] at this
        cases this
      by_cases h3 : matchSetFails r.products (productOf line)
      · have a3 := (matchSetFails_true_iff _ _).mp h3
        have b3 : ¬ passesSet r.products (productOf line) := by
          intro hpass
          have := (matchSetFails_false_iff r.products (productOf line)).mpr hpass
          rw [h3] at this
          cases this
        simp [h1, h2, h3, a1, a2, a3, b1, b2, b3, hne2, hne4]
      · have hf3 : matchSetFails r.products (productOf line) = false := by
          revert h3; cases matchSetFails r.products (productOf line) <;> simp
        have a3 : passesSet r.products (productOf line) :=
          (matchSetFails_false_iff _ _).mp hf3
        have b3 : ¬ ∃ S, r.products = some S ∧ productOf line ∉ S := by
          intro hex
          have := (matchSetFails_true_iff r.products (productOf line)).mpr hex
          rw [hf3] at this
          cases this
        simp [h1, h2, h3, a1, a2, a3, b1, b2, b3]

/-- Witness for refdata_validation_amended: with currencies = {"EUR"} and the
    concrete 12-column line vLine (currency "a"), the validator reports
    invalid_currency. -/
theorem refdata_validation_witness :
    (validateLine ⟨some [['E', 'U', 'R']], none, none⟩ vLine).map LineError.errorType
      = some "invalid_currency" :=
  (refdata_validation_amended ⟨some [['E', 'U', 'R']], none, none⟩ vLine
    (by decide) (by decide) (by decide) (by decide)).1.mpr
    ⟨[['E', 'U', 'R']], rfl, by decide⟩

/-- Counterexample to Claim C6 as stated: with a PRESENT but EMPTY currencies
    set, the validator rejects the otherwise-valid line vLine with
    invalid_currency, whereas the claim says a line is accepted when the
    category's refData set is empty. -/
theorem refdata_empty_set_ctrex :
    (validateLine c6refData vLine).map LineError.errorType = some "invalid_currency" ∧
    c6refData.currencies = some ([] : List (List Char)) := by
  decide

-- ===========================================================
-- Claim C4 and Claim C9
-- ===========================================================

theorem busyFlags_set_get (bs : List Bool) (i : Nat) (h : i < bs.length) :
    (bs.set i false).getD i true = false := by
  induction bs generalizing i with
  | nil => simp at h
  | cons b bs ih =>
    cases i with
    | zero => rfl
    | succ i =>
      have h2 : i < bs.length := by simpa using h
      simpa [List.set, List.getD] using ih i h2

/-- Claim C4 (amended): the pool's worker 'error' handler marks the failed
    worker idle and wakes one queued waiter (so the pool does not deadlock or
    crash), but it leaves every runner counter and the first-error sample
    untouched: the failed fragment's lines are NOT added to errorLines and no
    worker_crash first error is recorded (see the counterexample). -/
theorem worker_error_amended (p : PoolState) (agg : RunnerAgg) (i : Nat)
    (h : i < p.busyFlags.length) :
    (onWorkerError p agg i).1.busyFlags.getD i true = false ∧
    (onWorkerError p agg i).1.waitQueue = p.waitQueue - 1 ∧
    (onWorkerError p agg i).2 = agg ∧
    (onWorkerError p agg i).2.errorLines = agg.errorLines ∧
    (onWorkerError p agg i).2.firstError = agg.firstError :=
  ⟨busyFlags_set_get p.busyFlags i h, rfl, rfl, rfl, rfl⟩

/-- Witness for worker_error_amended on the one-worker pool c4pool. -/
theorem worker_error_amended_witness :
    (onWorkerError c4pool c4agg 0).1.busyFlags.getD 0 true = false ∧
    (onWorkerError c4pool c4agg 0).1.waitQueue = c4pool.waitQueue - 1 ∧
    (onWorkerError c4pool c4agg 0).2 = c4agg ∧
    (onWorkerError c4pool c4agg 0).2.errorLines = c4agg.errorLines ∧
    (onWorkerError c4pool c4agg 0).2.firstError = c4agg.firstError :=
  worker_error_amended c4pool c4agg 0 (by decide)

/-- Counterexample to Claim C4 as stated: after a worker crash on a fragment
    of 5 lines, the handler leaves errorLines at 0 and firstError unset,
    whereas the spec-mandated behaviour (specOnWorkerError) yields
    errorLines = 5 and a worker_crash first error; the two disagree. -/
theorem worker_error_ctrex :
    (onWorkerError c4pool c4agg 0).2.errorLines = 0 ∧
    (onWorkerError c4pool c4agg 0).2.firstError = none ∧
    (specOnWorkerError c4pool c4agg 0 5).2.errorLines = 5 ∧
    (specOnWorkerError c4pool c4agg 0 5).2.firstError
        = some ⟨0, "worker_crash", "", none, none, []⟩ ∧
    (onWorkerError c4pool c4agg 0).2 ≠ (specOnWorkerError c4pool c4agg 0 5).2 := by
  decide

/-- Claim C9: cancel is idempotent (cancelling twice equals cancelling once,
    and cancelling a jobId that is not active is a no-op), and a runner that
    observes the cancellation ends the job with terminal status CANCELLED and
    errorMessage "Job cancelled by user". -/
theorem cancel_idempotent_and_terminal :
    (∀ (m : String → Option JobHandle) (jobId : String),
        m jobId = none → cancelJob m jobId = m) ∧
    (∀ (m : String → Option JobHandle) (jobId : String),
        cancelJob (cancelJob m jobId) jobId = cancelJob m jobId) ∧
    (∀ (r : RefData) (mem : Nat → ℚ) (chunks : List (List Char)),
        chunks ≠ [] →
        (runJob r mem (some 0) chunks).status = "CANCELLED" ∧
        (runJob r mem (some 0) chunks).errorMessage = some "Job cancelled by user") := by
  have cancelJob_eq : ∀ (m : String → Option JobHandle) (jobId : String),
      cancelJob m jobId = match m jobId with
        | none => m
        | some _ => fun k => if k = jobId then some ⟨true, true⟩ else m k :=
    fun _ _ => rfl
  refine ⟨?_, ?_, ?_⟩
  · intro m jobId h
    rw [cancelJob_eq, h]
  · intro m jobId
    cases h : m jobId with
    | none =>
      have hm : cancelJob m jobId = m := by rw [cancelJob_eq, h]
      rw [hm]
      exact hm
    | some hdl =>
      have h1 : cancelJob m jobId
          = fun k => if k = jobId then some ⟨true, true⟩ else m k := by
        rw [cancelJob_eq, h]
      have h3 : (cancelJob m jobId) jobId = some ⟨true, true⟩ := by
        rw [h1]
        simp
      conv_lhs => rw [cancelJob_eq, h3]
      simp only []
      funext k
      by_cases hk : k = jobId
      · subst hk
        simp [h3]
      · simp [hk]
  · intro r mem chunks hne
    cases chunks with
    | nil => exact absurd rfl hne
    | cons c cs =>
      have h1 : streamPhase r mem (some 0) (c :: cs)
          = .error ⟨true, "Job cancelled", initLoopState⟩ := by
        rw [streamPhase, chunkLoop]
        rw [if_pos (by rw [cancelHit]; simp)]
      rw [runJob, h1]
      exact ⟨rfl, rfl⟩

/-- Witness for cancel_idempotent_and_terminal at the one-chunk stream ["a"]:
    the run cancelled before chunk 0 ends CANCELLED with the cancel message. -/
theorem cancel_idempotent_witness :
    (runJob refDataEmpty memZero (some 0) [['a']]).status = "CANCELLED" ∧
    (runJob refDataEmpty memZero (some 0) [['a']]).errorMessage
        = some "Job cancelled by user" :=
  cancel_idempotent_and_terminal.2.2 refDataEmpty memZero [['a']] (by simp)

-- ===========================================================
-- Lemmas: worker results on replicated lines
-- ===========================================================

theorem workerFold_replicate_some (r : RefData) (s : Nat) (L : List Char)
    (e : LineError) (hb : blankLine L = false) (hv : validateLine r L = some e) :
    ∀ (n i p q : Nat) (f : FirstError),
      workerFold r s i (List.replicate n L) ⟨p, q, some f⟩ = ⟨p + n, q + n, some f⟩ := by
  intro n
  induction n with
  | zero => intro i p q f; simp [workerFold]
  | succ n ih =>
    intro i p q f
    rw [List.replicate_succ]
    have hsucc : workerFold r s i (L :: List.replicate n L) ⟨p, q, some f⟩
        = workerFold r s (i + 1) (List.replicate n L)
            (lineStep r s i L ⟨p, q, some f⟩) := rfl
    rw [hsucc]
    have hls : lineStep r s i L ⟨p, q, some f⟩ = ⟨p + 1, q + 1, some f⟩ := by
      rw [lineStep, if_neg (by simp [hb]), hv]
    rw [hls, ih (i + 1) (p + 1) (q + 1) f]
    simp [WorkerAcc.mk.injEq]
    omega

theorem workerFold_replicate_err (r : RefData) (s : Nat) (L : List Char)
    (e : LineError) (hb : blankLine L = false) (hv : validateLine r L = some e) :
    ∀ (n i p q : Nat),
      workerFold r s i (List.replicate (n + 1) L) ⟨p, q, none⟩
        = ⟨p + (n + 1), q + (n + 1),
           some ⟨s + i, e.errorType, e.errorMessage, e.fieldName, e.fieldValue,
                 L.take 500⟩⟩ := by
  intro n i p q
  rw [List.replicate_succ]
  have hsucc : workerFold r s i (L :: List.replicate n L) ⟨p, q, none⟩
      = workerFold r s (i + 1) (List.replicate n L)
          (lineStep r s i L ⟨p, q, none⟩) := rfl
  rw [hsucc]
  have hls : lineStep r s i L ⟨p, q, none⟩
      = ⟨p + 1, q + 1, some ⟨s + i, e.errorType, e.errorMessage, e.fieldName,
                             e.fieldValue, L.take 500⟩⟩ := by
    rw [lineStep, if_neg (by simp [hb]), hv]
  rw [hls, workerFold_replicate_some r s L e hb hv n (i + 1) (p + 1) (q + 1) _]
  simp [WorkerAcc.mk.injEq]
  omega

theorem workerFold_replicate_ok (r : RefData) (s : Nat) (L : List Char)
    (hb : blankLine L = false) (hv : validateLine r L = none) :
    ∀ (n i p q : Nat) (fe : Option FirstError),
      workerFold r s i (List.replicate n L) ⟨p, q, fe⟩ = ⟨p + n, q, fe⟩ := by
  intro n
  induction n with
  | zero => intro i p q fe; simp [workerFold]
  | succ n ih =>
    intro i p q fe
    rw [List.replicate_succ]
    have hsucc : workerFold r s i (L :: List.replicate n L) ⟨p, q, fe⟩
        = workerFold r s (i + 1) (List.replicate n L)
            (lineStep r s i L ⟨p, q, fe⟩) := rfl
    rw [hsucc]
    have hls : lineStep r s i L ⟨p, q, fe⟩ = ⟨p + 1, q, fe⟩ := by
      rw [lineStep, if_neg (by simp [hb]), hv]
    rw [hls, ih (i + 1) (p + 1) q fe]
    simp [WorkerAcc.mk.injEq]
    omega

theorem processFragment_blockRep_err (r : RefData) (k s m : Nat) (L : List Char)
    (e : LineError) (hL : '\n' ∉ L) (hb : blankLine L = false)
    (hv : validateLine r L = some e) :
    processFragment r k s (blockRep L m ++ L)
      = ⟨k, m + 1, byteLen (blockRep L m ++ L), m + 1,
         some ⟨s, e.errorType, e.errorMessage, e.fieldName, e.fieldValue,
               L.take 500⟩⟩ := by
  rw [processFragment]
  rw [noNl_blockRep_elems L hL m]
  rw [workerFold_replicate_err r s L e hb hv m 0 0 0]
  simp

theorem processFragment_blockRep_ok (r : RefData) (k s m : Nat) (L : List Char)
    (hL : '\n' ∉ L) (hb : blankLine L = false) (hv : validateLine r L = none) :
    processFragment r k s (blockRep L m ++ L)
      = ⟨k, m + 1, byteLen (blockRep L m ++ L), 0, none⟩ := by
  rw [processFragment]
  rw [noNl_blockRep_elems L hL m]
  rw [workerFold_replicate_ok r s L hb hv (m + 1) 0 0 0 none]
  simp

-- ===========================================================
-- Lemmas: the runner's in-stream loop
-- ===========================================================

theorem sliceDispatchGo_succ (r : RefData) (mem : Nat → ℚ) (fuel : Nat)
    (st : LoopState) :
    sliceDispatchGo r mem (fuel + 1) st =
      if byteLen st.buffer ≥ FRAGMENT_MAX_BYTES then
        match lastNewlineIdx st.buffer with
        | none => .ok st
        | some i =>
          if st.errorLines ≥ FAIL_FAST_THRESHOLD then
            .error ⟨false, failFastMsg st.errorLines,
              { st with
                buffer := st.buffer.drop (i + 1)
                fragNum := st.fragNum + 1
                startLine := st.startLine + lineCountOf (st.buffer.take i) }⟩
          else
            sliceDispatchGo r mem fuel
              (applyResult
                { st with
                  buffer := st.buffer.drop (i + 1)
                  fragNum := st.fragNum + 1
                  startLine := st.startLine + lineCountOf (st.buffer.take i) }
                (processFragment r (st.fragNum + 1) st.startLine (st.buffer.take i)))
      else .ok st := rfl

theorem applyResult_buffer (st : LoopState) (res : FragmentResult) :
    (applyResult st res).buffer = st.buffer := rfl

theorem sliceDispatchGo_fuel (r : RefData) (mem : Nat → ℚ) (fuel : Nat) :
    ∀ st : LoopState, st.buffer.length < fuel →
      sliceDispatchGo r mem fuel st = sliceDispatch r mem st := by
  induction fuel using Nat.strong_induction_on with
  | _ fuel ih =>
    intro st hlen
    cases fuel with
    | zero => omega
    | succ f =>
      show sliceDispatchGo r mem (f + 1) st
          = sliceDispatchGo r mem (st.buffer.length + 1) st
      rw [sliceDispatchGo_succ, sliceDispatchGo_succ]
      by_cases hge : byteLen st.buffer ≥ FRAGMENT_MAX_BYTES
      · rw [if_pos hge, if_pos hge]
        cases hidx : lastNewlineIdx st.buffer with
        | none => rfl
        | some i =>
          have hi := lastNewlineIdx_lt _ _ hidx
          have hrest : (st.buffer.drop (i + 1)).length < st.buffer.length := by
            rw [List.length_drop]; omega
          simp only []
          by_cases hff : st.errorLines ≥ FAIL_FAST_THRESHOLD
          · rw [if_pos hff]
            rw [if_pos hff]
          · rw [if_neg hff, if_neg hff]
            rw [ih f (by omega) _
                  (by rw [applyResult_buffer]
                      show (st.buffer.drop (i + 1)).length < f
                      omega),
                ih st.buffer.length (by omega) _
                  (by rw [applyResult_buffer]
                      show (st.buffer.drop (i + 1)).length < st.buffer.length
                      omega)]
      · rw [if_neg hge, if_neg hge]

theorem sliceDispatch_small (r : RefData) (mem : Nat → ℚ) (st : LoopState)
    (h : byteLen st.buffer < FRAGMENT_MAX_BYTES) :
    sliceDispatch r mem st = .ok st := by
  rw [sliceDispatch, sliceDispatchGo_succ, if_neg (by omega)]

theorem sliceDispatch_failfast (r : RefData) (mem : Nat → ℚ) (st : LoopState)
    (i : Nat) (hge : byteLen st.buffer ≥ FRAGMENT_MAX_BYTES)
    (hidx : lastNewlineIdx st.buffer = some i)
    (hff : st.errorLines ≥ FAIL_FAST_THRESHOLD) :
    sliceDispatch r mem st
      = .error ⟨false, failFastMsg st.errorLines,
          { st with
            buffer := st.buffer.drop (i + 1)
            fragNum := st.fragNum + 1
            startLine := st.startLine + lineCountOf (st.buffer.take i) }⟩ := by
  rw [sliceDispatch, sliceDispatchGo_succ, if_pos hge, hidx]
  simp only []
  rw [if_pos hff]

theorem sliceDispatch_step (r : RefData) (mem : Nat → ℚ) (st : LoopState)
    (i : Nat) (hge : byteLen st.buffer ≥ FRAGMENT_MAX_BYTES)
    (hidx : lastNewlineIdx st.buffer = some i)
    (hff : ¬ st.errorLines ≥ FAIL_FAST_THRESHOLD) :
    sliceDispatch r mem st
      = sliceDispatch r mem
          (applyResult
            { st with
              buffer := st.buffer.drop (i + 1)
              fragNum := st.fragNum + 1
              startLine := st.startLine + lineCountOf (st.buffer.take i) }
            (processFragment r (st.fragNum + 1) st.startLine (st.buffer.take i))) := by
  have hi := lastNewlineIdx_lt _ _ hidx
  rw [sliceDispatch, sliceDispatchGo_succ, if_pos hge, hidx]
  simp only []
  rw [if_neg hff]
  exact sliceDispatchGo_fuel r mem st.buffer.length _
    (by rw [applyResult_buffer]
        show (st.buffer.drop (i + 1)).length < st.buffer.length
        rw [List.length_drop]
        omega)

theorem sliceDispatch_concat (r : RefData) (mem : Nat → ℚ) (X : List Char)
    (st : LoopState) (hbuf : st.buffer = X ++ ['\n'])
    (hge : byteLen (X ++ ['\n']) ≥ FRAGMENT_MAX_BYTES)
    (hff : ¬ st.errorLines ≥ FAIL_FAST_THRESHOLD) :
    sliceDispatch r mem st
      = .ok (applyResult
          { st with
            buffer := []
            fragNum := st.fragNum + 1
            startLine := st.startLine + lineCountOf X }
          (processFragment r (st.fragNum + 1) st.startLine X)) := by
  have hidx : lastNewlineIdx st.buffer = some X.length := by
    rw [hbuf]; exact lastNewlineIdx_concat X
  have htake : st.buffer.take X.length = X := by
    rw [hbuf]; exact takeAppendAll X ['\n']
  have hdrop : st.buffer.drop (X.length + 1) = [] := by
    rw [hbuf]
    have := dropAppendPlus X ['\n'] 1
    simpa using this
  rw [sliceDispatch_step r mem st X.length (by rw [hbuf]; exact hge) hidx hff]
  rw [htake, hdrop]
  exact sliceDispatch_small r mem _
    (by rw [applyResult_buffer]
        show byteLen ([] : List Char) < FRAGMENT_MAX_BYTES
        norm_num [byteLen, FRAGMENT_MAX_BYTES])

theorem chunkLoop_nil (r : RefData) (mem : Nat → ℚ) (ca : Option Nat) (k : Nat)
    (st : LoopState) : chunkLoop r mem ca k st [] = .ok st := rfl

theorem chunkLoop_cons (r : RefData) (mem : Nat → ℚ) (ca : Option Nat) (k : Nat)
    (st : LoopState) (c : List Char) (cs : List (List Char)) :
    chunkLoop r mem ca k st (c :: cs)
      = if cancelHit ca k then .error ⟨true, "Job cancelled", st⟩
        else
          match sliceDispatch r mem { st with buffer := st.buffer ++ c } with
          | .error e => .error e
          | .ok st1 => chunkLoop r mem ca (k + 1) st1 cs := rfl

theorem sliceDispatchGo_memOracle (r : RefData) (mem mem2 : Nat → ℚ) :
    ∀ (fuel : Nat) (st : LoopState),
      sliceDispatchGo r mem fuel st = sliceDispatchGo r mem2 fuel st := by
  intro fuel
  induction fuel with
  | zero => intro st; rfl
  | succ f ih =>
    intro st
    rw [sliceDispatchGo_succ, sliceDispatchGo_succ]
    by_cases hge : byteLen st.buffer ≥ FRAGMENT_MAX_BYTES
    · rw [if_pos hge, if_pos hge]
      cases hidx : lastNewlineIdx st.buffer with
      | none => rfl
      | some i =>
        simp only []
        by_cases hff : st.errorLines ≥ FAIL_FAST_THRESHOLD
        · rw [if_pos hff]
          rw [if_pos hff]
        · rw [if_neg hff, if_neg hff, ih]
    · rw [if_neg hge, if_neg hge]

theorem chunkLoop_memOracle (r : RefData) (mem mem2 : Nat → ℚ) (ca : Option Nat) :
    ∀ (cs : List (List Char)) (k : Nat) (st : LoopState),
      chunkLoop r mem ca k st cs = chunkLoop r mem2 ca k st cs := by
  intro cs
  induction cs with
  | nil => intro k st; rfl
  | cons c cs ih =>
    intro k st
    rw [chunkLoop_cons, chunkLoop_cons]
    by_cases hc : cancelHit ca k
    · rw [if_pos hc, if_pos hc]
    · rw [if_neg hc, if_neg hc]
      rw [show sliceDispatch r mem { st with buffer := st.buffer ++ c }
            = sliceDispatch r mem2 { st with buffer := st.buffer ++ c } from
          sliceDispatchGo_memOracle r mem mem2 _ _]
      cases sliceDispatch r mem2 { st with buffer := st.buffer ++ c } with
      | error e => rfl
      | ok st1 => exact ih (k + 1) st1

-- ===========================================================
-- Claim C8 and Claim C3
-- ===========================================================

theorem empty_stream_chunkLoop (r : RefData) (mem : Nat → ℚ) :
    ∀ (chunks : List (List Char)) (k : Nat) (st : LoopState),
      st.buffer = [] → (∀ c ∈ chunks, c = []) →
      chunkLoop r mem none k st chunks = .ok st := by
  intro chunks
  induction chunks with
  | nil => intro k st _ _; rfl
  | cons c cs ih =>
    intro k st hb hall
    rw [chunkLoop_cons]
    rw [if_neg (by simp [cancelHit])]
    have hc : c = [] := hall c (List.mem_cons_self c cs)
    have hbuf : st.buffer ++ c = st.buffer := by rw [hb, hc]; rfl
    rw [hbuf]
    have heta : ({ st with buffer := st.buffer } : LoopState) = st := rfl
    rw [heta]
    rw [sliceDispatch_small r mem st
      (by rw [hb]; norm_num [byteLen, FRAGMENT_MAX_BYTES])]
    exact ih (k + 1) st hb (fun x hx => hall x (List.mem_cons_of_mem c hx))

/-- Claim C8: a job whose stream yields zero bytes reaches DONE with all
    counters zero, numFragments = fragmentsDone = 0, no error message and
    validationPassed = true; no fragment is dispatched for the empty tail. -/
theorem empty_stream_done (r : RefData) (mem : Nat → ℚ)
    (chunks : List (List Char)) (h : ∀ c ∈ chunks, c = []) :
    runJob r mem none chunks
      = ⟨"DONE", some 0, 0, 0, 0, some 0, some 0, none, some true⟩ := by
  rw [runJob, streamPhase]
  rw [empty_stream_chunkLoop r mem chunks 0 initLoopState rfl h]
  rfl

/-- Witness for empty_stream_done at the empty chunk stream. -/
theorem empty_stream_done_witness :
    runJob refDataEmpty memZero none []
      = ⟨"DONE", some 0, 0, 0, 0, some 0, some 0, none, some true⟩ :=
  empty_stream_done refDataEmpty memZero [] (by simp)

/-- Claim C3 (amended): checkMemoryThreshold only compares RSS against the
    threshold and returns false (after logging a warning) on a breach; the
    runner discards its result, so the job outcome is entirely independent of
    the memory oracle and a breach never produces a terminal ERROR by itself
    (see the counterexample). -/
theorem memory_check_amended :
    (∀ (r : RefData) (ca : Option Nat) (chunks : List (List Char))
        (mem mem2 : Nat → ℚ),
        runJob r mem ca chunks = runJob r mem2 ca chunks) ∧
    (∀ rss : ℚ, rss > CONTAINER_MEMORY_MB * (MEMORY_THRESHOLD_PERCENT / 100) →
        checkMemoryThreshold rss MEMORY_THRESHOLD_PERCENT CONTAINER_MEMORY_MB
          = false) := by
  constructor
  · intro r ca chunks mem mem2
    rw [runJob, runJob, streamPhase, streamPhase, chunkLoop_memOracle r mem mem2]
  · intro rss h
    rw [checkMemoryThreshold]
    rw [if_pos h]

/-- Witness for memory_check_amended: 2000 MB RSS breaches 75% of 2048 MB. -/
theorem memory_check_amended_witness :
    checkMemoryThreshold 2000 MEMORY_THRESHOLD_PERCENT CONTAINER_MEMORY_MB
      = false :=
  memory_check_amended.2 2000
    (by norm_num [CONTAINER_MEMORY_MB, MEMORY_THRESHOLD_PERCENT])

/-- Counterexample to Claim C3 as stated: with the memory oracle reporting
    10000 MB RSS (far above 75% of 2048 MB) at every check - including the
    check between the first and second dispatch - the job of two full valid
    fragments still ends DONE with no error message, because the runner
    ignores checkMemoryThreshold's result. -/
theorem memory_ctrex :
    checkMemoryThreshold (memHigh 1) MEMORY_THRESHOLD_PERCENT
        CONTAINER_MEMORY_MB = false ∧
    checkMemoryThreshold (memHigh 2) MEMORY_THRESHOLD_PERCENT
        CONTAINER_MEMORY_MB = false ∧
    runJob refDataEmpty memHigh none c3chunks
      = ⟨"DONE", some 4194304, 4194304, 67108862, 0, some 2, some 2, none,
         some true⟩ := by
  have hnoNlV : '\n' ∉ vLine := by decide
  have hbV : blankLine vLine = false := by decide
  have hvV : validateLine refDataEmpty vLine = none := by decide
  have h21 : (2097152 : Nat) = 2097151 + 1 := by norm_num
  have hsplit : c3chunk = (blockRep vLine 2097151 ++ vLine) ++ ['\n'] := by
    rw [c3chunk, h21]; exact blockRep_succ_concat vLine 2097151
  have hbX : byteLen (blockRep vLine 2097151 ++ vLine) = 33554431 := by
    rw [byteLen_append, byteLen_blockRep,
        show byteLen vLine = 15 from by decide]
  have hge : byteLen ((blockRep vLine 2097151 ++ vLine) ++ ['\n'])
      ≥ FRAGMENT_MAX_BYTES := by
    rw [byteLen_append, hbX, show byteLen ['\n'] = 1 from rfl]
    norm_num [FRAGMENT_MAX_BYTES]
  have hlc : lineCountOf (blockRep vLine 2097151 ++ vLine) = 2097152 := by
    rw [lineCountOf_blockRep_frag vLine hnoNlV 2097151]
  have hpf : ∀ k s : Nat,
      processFragment refDataEmpty k s (blockRep vLine 2097151 ++ vLine)
        = ⟨k, 2097152, 33554431, 0, none⟩ := by
    intro k s
    rw [processFragment_blockRep_ok refDataEmpty k s 2097151 vLine hnoNlV hbV hvV,
        hbX]
  have h1 : streamPhase refDataEmpty memHigh none c3chunks
      = .ok ⟨[], 4194305, 2, 4194304, 67108862, 0, 2, none⟩ := by
    rw [streamPhase, c3chunks]
    rw [chunkLoop_cons, if_neg (by simp [cancelHit])]
    rw [sliceDispatch_concat refDataEmpty memHigh (blockRep vLine 2097151 ++ vLine)
          _ hsplit hge (by show ¬ (0 : Nat) ≥ FAIL_FAST_THRESHOLD; decide)]
    rw [hpf, hlc]
    simp only []
    show chunkLoop refDataEmpty memHigh none 1
        ⟨[], 2097153, 1, 2097152, 33554431, 0, 1, none⟩ [c3chunk]
        = .ok ⟨[], 4194305, 2, 4194304, 67108862, 0, 2, none⟩
    rw [chunkLoop_cons, if_neg (by simp [cancelHit])]
    rw [sliceDispatch_concat refDataEmpty memHigh (blockRep vLine 2097151 ++ vLine)
          _ hsplit hge (by show ¬ (0 : Nat) ≥ FAIL_FAST_THRESHOLD; decide)]
    rw [hpf, hlc]
    simp only []
    show chunkLoop refDataEmpty memHigh none 2
        ⟨[], 4194305, 2, 4194304, 67108862, 0, 2, none⟩ []
        = .ok ⟨[], 4194305, 2, 4194304, 67108862, 0, 2, none⟩
    rw [chunkLoop_nil]
  refine ⟨by norm_num [checkMemoryThreshold, memHigh, MEMORY_THRESHOLD_PERCENT,
      CONTAINER_MEMORY_MB], by norm_num [checkMemoryThreshold, memHigh,
      MEMORY_THRESHOLD_PERCENT, CONTAINER_MEMORY_MB], ?_⟩
  rw [runJob, h1]
  rfl

-- ===========================================================
-- Claim C5
-- ===========================================================

theorem failFastMsg_ne_cancel (n : Nat) :
    (failFastMsg n == "Job cancelled") = false := by
  rw [beq_eq_false_iff_ne]
  intro h
  have hd := congrArg String.data h
  rw [failFastMsg] at hd
  rw [String.data_append, String.data_append, String.data_append] at hd
  rw [show ("Too many errors (" : String).data
        = 'T' :: "oo many errors (".data from rfl] at hd
  rw [show ("Job cancelled" : String).data
        = 'J' :: "ob cancelled".data from rfl] at hd
  rw [List.cons_append, List.cons_append] at hd
  exact absurd (List.cons.inj hd).1 (by decide)

/-- Claim C5 (amended): when errorLines has reached FAIL_FAST_THRESHOLD
    before an IN-STREAM fragment dispatch, the runner throws before
    dispatching that fragment and the catch block persists the counters at
    the throw site with terminal status ERROR and the threshold message.  The
    final flush dispatch, however, is not preceded by any fail-fast check: it
    dispatches regardless of errorLines, so a threshold reached only before
    the flush does not abort the job (see the counterexample). -/
theorem fail_fast_amended :
    (∀ (r : RefData) (mem : Nat → ℚ) (st : LoopState) (i : Nat),
        byteLen st.buffer ≥ FRAGMENT_MAX_BYTES →
        lastNewlineIdx st.buffer = some i →
        st.errorLines ≥ FAIL_FAST_THRESHOLD →
        sliceDispatch r mem st
          = .error ⟨false, failFastMsg st.errorLines,
              { st with
                buffer := st.buffer.drop (i + 1)
                fragNum := st.fragNum + 1
                startLine := st.startLine + lineCountOf (st.buffer.take i) }⟩) ∧
    (∀ (n : Nat) (st : LoopState),
        catchUpdate false (failFastMsg n) st
          = ⟨"ERROR", none, st.processedLines, st.processedBytes, st.errorLines,
             none, none, some (failFastMsg n), none⟩) ∧
    (∀ (r : RefData) (st : LoopState), jsTrim st.buffer ≠ [] →
        (flushDispatch r st).fragmentsDone = st.fragmentsDone + 1) := by
  refine ⟨?_, ?_, ?_⟩
  · intro r mem st i hge hidx hff
    exact sliceDispatch_failfast r mem st i hge hidx hff
  · intro n st
    rw [catchUpdate]
    simp [failFastMsg_ne_cancel n]
  · intro r st h
    rw [flushDispatch, if_pos h]
    rfl

/-- Witness for fail_fast_amended: the flush dispatch happens even with
    errorLines = 60000 at or above the threshold. -/
theorem fail_fast_amended_witness :
    (flushDispatch refDataEmpty ⟨['y'], 1, 1, 0, 0, 60000, 0, none⟩).fragmentsDone
      = (⟨['y'], 1, 1, 0, 0, 60000, 0, none⟩ : LoopState).fragmentsDone + 1 :=
  fail_fast_amended.2.2 refDataEmpty ⟨['y'], 1, 1, 0, 0, 60000, 0, none⟩
    (by decide)

/-- Counterexample to Claim C5 as stated: after the single in-stream fragment
    completes, errorLines = 2^24 = 16777216 ≥ FAIL_FAST_THRESHOLD, yet the
    subsequent flush dispatch of the tail "y" proceeds without any fail-fast
    check and the job ends DONE (fragmentsDone = 2, no error message) instead
    of ERROR. -/
theorem fail_fast_ctrex :
    exceptErrorLines (streamPhase refDataEmpty memZero none c5chunks)
        = 16777216 ∧
    (16777216 : Nat) ≥ FAIL_FAST_THRESHOLD ∧
    (runJob refDataEmpty memZero none c5chunks).status = "DONE" ∧
    (runJob refDataEmpty memZero none c5chunks).fragmentsDone = some 2 ∧
    (runJob refDataEmpty memZero none c5chunks).errorMessage = none := by
  have hnoNlX : '\n' ∉ xLine := by decide
  have hbl : blankLine xLine = false := by decide
  have hvX : validateLine refDataEmpty xLine
      = some ⟨"too_few_columns", "Expected >=12 columns, got 1", none, none⟩ := by
    decide
  have h24 : (16777216 : Nat) = 16777215 + 1 := by norm_num
  have hsplit : c5chunk = (blockRep xLine 16777215 ++ xLine) ++ ['\n'] := by
    rw [c5chunk, h24]; exact blockRep_succ_concat xLine 16777215
  have hbX : byteLen (blockRep xLine 16777215 ++ xLine) = 33554431 := by
    rw [byteLen_append, byteLen_blockRep, show byteLen xLine = 1 from rfl]
  have hge : byteLen ((blockRep xLine 16777215 ++ xLine) ++ ['\n'])
      ≥ FRAGMENT_MAX_BYTES := by
    rw [byteLen_append, hbX, show byteLen ['\n'] = 1 from rfl]
    norm_num [FRAGMENT_MAX_BYTES]
  have hlc : lineCountOf (blockRep xLine 16777215 ++ xLine) = 16777216 := by
    rw [lineCountOf_blockRep_frag xLine hnoNlX 16777215]
  have hpf : ∀ k s : Nat,
      processFragment refDataEmpty k s (blockRep xLine 16777215 ++ xLine)
        = ⟨k, 16777216, 33554431, 16777216,
           some ⟨s, "too_few_columns", "Expected >=12 columns, got 1", none,
                 none, ['x']⟩⟩ := by
    intro k s
    rw [processFragment_blockRep_err refDataEmpty k s 16777215 xLine
          ⟨"too_few_columns", "Expected >=12 columns, got 1", none, none⟩
          hnoNlX hbl hvX, hbX]
    rfl
  have h1 : streamPhase refDataEmpty memZero none c5chunks
      = .ok ⟨['y'], 16777217, 1, 16777216, 33554431, 16777216, 1, some feX⟩ := by
    rw [streamPhase, c5chunks]
    rw [chunkLoop_cons, if_neg (by simp [cancelHit])]
    rw [sliceDispatch_concat refDataEmpty memZero
          (blockRep xLine 16777215 ++ xLine) _ hsplit hge
          (by show ¬ (0 : Nat) ≥ FAIL_FAST_THRESHOLD; decide)]
    rw [hpf, hlc]
    simp only []
    show chunkLoop refDataEmpty memZero none 1
        ⟨[], 16777217, 1, 16777216, 33554431, 16777216, 1, some feX⟩ [['y']]
        = .ok ⟨['y'], 16777217, 1, 16777216, 33554431, 16777216, 1, some feX⟩
    rw [chunkLoop_cons, if_neg (by simp [cancelHit])]
    rw [sliceDispatch_small refDataEmpty memZero _
          (by show byteLen (([] : List Char) ++ ['y']) < FRAGMENT_MAX_BYTES
              decide)]
    simp only []
    show chunkLoop refDataEmpty memZero none 2
        ⟨['y'], 16777217, 1, 16777216, 33554431, 16777216, 1, some feX⟩ []
        = .ok ⟨['y'], 16777217, 1, 16777216, 33554431, 16777216, 1, some feX⟩
    rw [chunkLoop_nil]
  have h2 : runJob refDataEmpty memZero none c5chunks
      = ⟨"DONE", some 16777217, 16777217, 33554432, 16777217, some 2, some 2,
         none, some false⟩ := by
    rw [runJob, h1]
    rfl
  refine ⟨by rw [h1]; rfl, by decide, by rw [h2], by rw [h2], by rw [h2]⟩
